import Mathlib

/-!
# A verification model of `config.py` (Platform.sh configuration reader)

This file embeds the Python class `Config` from `src/config.py` into Lean.

* JSON values (`Json`) model the structured values Python's `json.loads`
  produces: `dict` → `Json.obj` (an insertion-ordered association list),
  `list` → `Json.arr`, `str` → `Json.str`, `int` → `Json.num`,
  `bool`/`None` likewise.  JSON numbers are modelled as arbitrary-precision
  integers (Python `int`); Python `float` values are outside the model.
* The decoded attributes (`routesDef`, `relationshipsDef`, `variablesDef`,
  `applicationDef`) hold either a structured value or Python `None`
  (the result of a swallowed decode failure), hence `Option Json`;
  the class-level default `[]` is `some (Json.arr [])`.
* Python's dynamic failures (`AttributeError` on `.keys()`/`.items()` of a
  non-dict, `KeyError`, `IndexError`, `TypeError`) and the exceptions the
  methods raise deliberately (`RuntimeError`, `ValueError`) are modelled by
  the `PyErr` error kind of an `Except` result.  The two `RuntimeError`
  messages and the four `ValueError` messages of the source are told apart
  by distinct constructors named after the spec's error vocabulary.
* `base64.decodebytes`, UTF-8 decoding and `json.loads` — the trusted
  primitives `Config.decode` composes — are implemented concretely so that
  every theorem about the decoder is about executable code.
-/

/-- A structured value as produced by Python's `json.loads`: object members
keep insertion order, numbers are modelled as Python `int`. -/
inductive Json where
  | null : Json
  | bool : Bool → Json
  | num : Int → Json
  | str : String → Json
  | arr : List Json → Json
  | obj : List (String × Json) → Json

mutual

/-- Structural equality test on `Json` (Python `==` on decoded values). -/
def Json.beq : Json → Json → Bool
  | .null, .null => true
  | .bool a, .bool b => a == b
  | .num a, .num b => a == b
  | .str a, .str b => a == b
  | .arr a, .arr b => Json.beqList a b
  | .obj a, .obj b => Json.beqMembers a b
  | _, _ => false

/-- Elementwise `Json.beq` on arrays. -/
def Json.beqList : List Json → List Json → Bool
  | [], [] => true
  | a :: as, b :: bs => Json.beq a b && Json.beqList as bs
  | _, _ => false

/-- Memberwise `Json.beq` on object members. -/
def Json.beqMembers : List (String × Json) → List (String × Json) → Bool
  | [], [] => true
  | (k, a) :: as, (l, b) :: bs => k == l && (Json.beq a b && Json.beqMembers as bs)
  | _, _ => false

end

mutual

/-- Decidable equality on `Json`, by structural recursion so that concrete
instances evaluate inside the kernel. -/
def Json.decEq : (a b : Json) → Decidable (a = b)
  | .null, .null => isTrue rfl
  | .null, .bool _ => isFalse (fun h => Json.noConfusion h)
  | .null, .num _ => isFalse (fun h => Json.noConfusion h)
  | .null, .str _ => isFalse (fun h => Json.noConfusion h)
  | .null, .arr _ => isFalse (fun h => Json.noConfusion h)
  | .null, .obj _ => isFalse (fun h => Json.noConfusion h)
  | .bool _, .null => isFalse (fun h => Json.noConfusion h)
  | .bool a, .bool b =>
    match Bool.decEq a b with
    | isTrue h => isTrue (by rw [h])
    | isFalse h => isFalse (fun hh => by cases hh; exact h rfl)
  | .bool _, .num _ => isFalse (fun h => Json.noConfusion h)
  | .bool _, .str _ => isFalse (fun h => Json.noConfusion h)
  | .bool _, .arr _ => isFalse (fun h => Json.noConfusion h)
  | .bool _, .obj _ => isFalse (fun h => Json.noConfusion h)
  | .num _, .null => isFalse (fun h => Json.noConfusion h)
  | .num _, .bool _ => isFalse (fun h => Json.noConfusion h)
  | .num a, .num b =>
    match Int.decEq a b with
    | isTrue h => isTrue (by rw [h])
    | isFalse h => isFalse (fun hh => by cases hh; exact h rfl)
  | .num _, .str _ => isFalse (fun h => Json.noConfusion h)
  | .num _, .arr _ => isFalse (fun h => Json.noConfusion h)
  | .num _, .obj _ => isFalse (fun h => Json.noConfusion h)
  | .str _, .null => isFalse (fun h => Json.noConfusion h)
  | .str _, .bool _ => isFalse (fun h => Json.noConfusion h)
  | .str _, .num _ => isFalse (fun h => Json.noConfusion h)
  | .str a, .str b =>
    match String.decEq a b with
    | isTrue h => isTrue (by rw [h])
    | isFalse h => isFalse (fun hh => by cases hh; exact h rfl)
  | .str _, .arr _ => isFalse (fun h => Json.noConfusion h)
  | .str _, .obj _ => isFalse (fun h => Json.noConfusion h)
  | .arr _, .null => isFalse (fun h => Json.noConfusion h)
  | .arr _, .bool _ => isFalse (fun h => Json.noConfusion h)
  | .arr _, .num _ => isFalse (fun h => Json.noConfusion h)
  | .arr _, .str _ => isFalse (fun h => Json.noConfusion h)
  | .arr a, .arr b =>
    match Json.decEqList a b with
    | isTrue h => isTrue (by rw [h])
    | isFalse h => isFalse (fun hh => by cases hh; exact h rfl)
  | .arr _, .obj _ => isFalse (fun h => Json.noConfusion h)
  | .obj _, .null => isFalse (fun h => Json.noConfusion h)
  | .obj _, .bool _ => isFalse (fun h => Json.noConfusion h)
  | .obj _, .num _ => isFalse (fun h => Json.noConfusion h)
  | .obj _, .str _ => isFalse (fun h => Json.noConfusion h)
  | .obj _, .arr _ => isFalse (fun h => Json.noConfusion h)
  | .obj a, .obj b =>
    match Json.decEqMembers a b with
    | isTrue h => isTrue (by rw [h])
    | isFalse h => isFalse (fun hh => by cases hh; exact h rfl)

/-- Decidable equality on arrays of `Json`. -/
def Json.decEqList : (a b : List Json) → Decidable (a = b)
  | [], [] => isTrue rfl
  | [], _ :: _ => isFalse (fun h => List.noConfusion h)
  | _ :: _, [] => isFalse (fun h => List.noConfusion h)
  | a :: as, b :: bs =>
    match Json.decEq a b with
    | isTrue h1 =>
      match Json.decEqList as bs with
      | isTrue h2 => isTrue (by rw [h1, h2])
      | isFalse h2 => isFalse (fun hh => by cases hh; exact h2 rfl)
    | isFalse h1 => isFalse (fun hh => by cases hh; exact h1 rfl)

/-- Decidable equality on object members. -/
def Json.decEqMembers : (a b : List (String × Json)) → Decidable (a = b)
  | [], [] => isTrue rfl
  | [], _ :: _ => isFalse (fun h => List.noConfusion h)
  | _ :: _, [] => isFalse (fun h => List.noConfusion h)
  | (k, a) :: as, (l, b) :: bs =>
    match String.decEq k l with
    | isTrue hk =>
      match Json.decEq a b with
      | isTrue h1 =>
        match Json.decEqMembers as bs with
        | isTrue h2 => isTrue (by rw [hk, h1, h2])
        | isFalse h2 => isFalse (fun hh => by cases hh; exact h2 rfl)
      | isFalse h1 => isFalse (fun hh => by cases hh; exact h1 rfl)
    | isFalse hk => isFalse (fun hh => by cases hh; exact hk rfl)

end

instance : DecidableEq Json := Json.decEq

/-- Assignment `d[k] = v` on a Python dict modelled as an ordered
association list: an existing key keeps its position and gets the new
value, a fresh key is appended at the end. -/
def objInsert : List (String × Json) → String → Json → List (String × Json)
  | [], k, v => [(k, v)]
  | (k0, v0) :: rest, k, v =>
    if k0 = k then (k0, v) :: rest else (k0, v0) :: objInsert rest k v

/-- The error kinds a `Config` operation can surface.  The first six model
the `RuntimeError`/`ValueError` messages the source raises deliberately
(named with the spec's error vocabulary); the remaining ones model
Python's dynamic exceptions on ill-typed data. -/
inductive PyErr where
  | platformUnavailable : PyErr
  | buildPhase : PyErr
  | relationshipNotFound : PyErr
  | relationshipIndex : PyErr
  | routeNotFound : PyErr
  | unknownProperty : PyErr
  | attributeError : PyErr
  | keyError : PyErr
  | indexError : PyErr
  | typeError : PyErr
  | binasciiError : PyErr
  | unicodeDecodeError : PyErr
deriving DecidableEq

/-- Python truthiness of `get_value`'s result: `None` and the empty string
are falsy, every other string is truthy. -/
def pyTruthyStr : Option String → Bool
  | none => false
  | some s => !(s == "")

/-- Python `str.upper()` restricted to the ASCII names the source uses. -/
def pyUpper (s : String) : String := String.mk (s.data.map Char.toUpper)

/-- The standard base64 alphabet, as the sextet value of a character
(`None` for every character outside the alphabet). -/
def charSextet (ch : Char) : Option Nat :=
  if 65 ≤ ch.toNat ∧ ch.toNat ≤ 90 then some (ch.toNat - 65)
  else if 97 ≤ ch.toNat ∧ ch.toNat ≤ 122 then some (ch.toNat - 71)
  else if 48 ≤ ch.toNat ∧ ch.toNat ≤ 57 then some (ch.toNat + 4)
  else if ch = '+' then some 62
  else if ch = '/' then some 63
  else none

/-- The character of a sextet value, inverse of `charSextet` below 64. -/
def b64Char (k : Nat) : Char :=
  if k < 26 then Char.ofNat (65 + k)
  else if k < 52 then Char.ofNat (71 + k)
  else if k < 62 then Char.ofNat (k - 4)
  else if k = 62 then '+'
  else '/'

/-- First character of the input that is base64-significant (an alphabet
character or the padding sign), as `binascii_find_valid` uses it. -/
def b64FindValid : List Char → Option Char
  | [] => none
  | ch :: rest =>
    if ch = '=' ∨ (charSextet ch).isSome then some ch else b64FindValid rest

/-- Worker of `base64.decodebytes` (lenient `binascii.a2b_base64`): walks
the characters keeping the sextets of the current quad in `acc`
(`acc.length ≤ 3`); characters outside the alphabet are skipped; a padding
sign after two sextets (followed by another padding sign) or after three
sextets ends the input; leftover sextets at the end of input are the
`Incorrect padding` error. -/
def b64Go : List Char → List Nat → Except Unit (List Nat)
  | [], acc => match acc with | [] => .ok [] | _ => .error ()
  | ch :: rest, acc =>
    if ch = '=' then
      match acc with
      | [a, b] =>
        match b64FindValid rest with
        | some '=' => .ok [a * 4 + b / 16]
        | _ => b64Go rest acc
      | [a, b, c] => .ok [a * 4 + b / 16, b % 16 * 16 + c / 4]
      | _ => b64Go rest acc
    else
      match charSextet ch with
      | none => b64Go rest acc
      | some v =>
        match acc with
        | [a, b, c] =>
          match b64Go rest [] with
          | .ok tail => .ok ((a * 4 + b / 16) :: (b % 16 * 16 + c / 4) :: (c % 4 * 64 + v) :: tail)
          | .error e => .error e
        | _ => b64Go rest (acc ++ [v])

/-- Python `base64.decodebytes` on the characters of the variable, yielding
the decoded bytes or the `binascii.Error` for incorrect padding. -/
def b64DecodeBytes (input : List Char) : Except Unit (List Nat) :=
  b64Go input []

/-- Python `base64.b64encode`: three bytes to four alphabet characters,
with `=` padding for a trailing group of one or two bytes. -/
def b64Encode : List Nat → List Char
  | [] => []
  | [b0] => [b64Char (b0 / 4), b64Char (b0 % 4 * 16), '=', '=']
  | [b0, b1] => [b64Char (b0 / 4), b64Char (b0 % 4 * 16 + b1 / 16), b64Char (b1 % 16 * 4), '=']
  | b0 :: b1 :: b2 :: rest =>
    b64Char (b0 / 4) :: b64Char (b0 % 4 * 16 + b1 / 16) ::
      b64Char (b1 % 16 * 4 + b2 / 64) :: b64Char (b2 % 64) :: b64Encode rest

/-- The UTF-8 bytes of one unicode scalar value. -/
def utf8EncodeChar (c : Char) : List Nat :=
  let v := c.toNat
  if v < 128 then [v]
  else if v < 2048 then [192 + v / 64, 128 + v % 64]
  else if v < 65536 then [224 + v / 4096, 128 + v / 64 % 64, 128 + v % 64]
  else [240 + v / 262144, 128 + v / 4096 % 64, 128 + v / 64 % 64, 128 + v % 64]

/-- Python `str.encode('utf-8')`, as a byte list. -/
def utf8Enc (s : String) : List Nat := (s.data.map utf8EncodeChar).flatten

/-- Whether a byte is a UTF-8 continuation byte. -/
def utf8Cont (b : Nat) : Bool := 128 ≤ b ∧ b < 192

/-- Whether a number is a unicode scalar value (no surrogates, below
U+110000). -/
def validScalar (v : Nat) : Bool := v < 55296 || (57343 < v && v < 1114112)

/-- One UTF-8-encoded scalar value at the head of the byte stream: `b` is
the leading byte, `bs` the bytes after it; yields the decoded character
and the remaining bytes, or `none` on malformed input (stray continuation
bytes, overlong encodings, surrogates, values beyond U+10FFFF — what
Python's strict `bytes.decode('utf-8')` rejects). -/
def utf8Step (b : Nat) (bs : List Nat) : Option (Char × List Nat) :=
  if b < 128 then some (Char.ofNat b, bs)
  else if b < 194 then none
  else if b < 224 then
    match bs with
    | b1 :: bs2 =>
      if utf8Cont b1 then some (Char.ofNat ((b - 192) * 64 + (b1 - 128)), bs2) else none
    | [] => none
  else if b < 240 then
    match bs with
    | b1 :: b2 :: bs2 =>
      if utf8Cont b1 && utf8Cont b2 then
        if 2048 ≤ (b - 224) * 4096 + (b1 - 128) * 64 + (b2 - 128)
            ∧ validScalar ((b - 224) * 4096 + (b1 - 128) * 64 + (b2 - 128)) = true then
          some (Char.ofNat ((b - 224) * 4096 + (b1 - 128) * 64 + (b2 - 128)), bs2)
        else none
      else none
    | _ => none
  else if b < 245 then
    match bs with
    | b1 :: b2 :: b3 :: bs2 =>
      if utf8Cont b1 && (utf8Cont b2 && utf8Cont b3) then
        if 65536 ≤ (b - 240) * 262144 + (b1 - 128) * 4096 + (b2 - 128) * 64 + (b3 - 128)
            ∧ validScalar ((b - 240) * 262144 + (b1 - 128) * 4096 + (b2 - 128) * 64
                + (b3 - 128)) = true then
          some (Char.ofNat ((b - 240) * 262144 + (b1 - 128) * 4096 + (b2 - 128) * 64
            + (b3 - 128)), bs2)
        else none
      else none
    | _ => none
  else none

/-- The decoding loop: one `utf8Step` per character.  Every step consumes
at least the leading byte, so any fuel above the byte count is enough. -/
def utf8DecGo : Nat → List Nat → Option (List Char)
  | _, [] => some []
  | 0, _ :: _ => none
  | fuel + 1, b :: bs =>
    match utf8Step b bs with
    | some (c, rest2) =>
      match utf8DecGo fuel rest2 with
      | some cs => some (c :: cs)
      | none => none
    | none => none

/-- Strict UTF-8 decoding of a byte list, as Python's `bytes.decode('utf-8')`
performs it (`None` models the `UnicodeDecodeError`). -/
def utf8Dec (bs : List Nat) : Option (List Char) := utf8DecGo (bs.length + 1) bs

/-- The character of a decimal digit value. -/
def digitChar (n : Nat) : Char := Char.ofNat (48 + n)

/-- The character of a hexadecimal digit value, lowercase as Python's
`json.dumps` prints `\uXXXX` escapes. -/
def hexDigitChar (n : Nat) : Char :=
  if n < 10 then Char.ofNat (48 + n) else Char.ofNat (87 + n)

/-- Four hexadecimal digits of a value below 65536. -/
def hex4 (n : Nat) : List Char :=
  [hexDigitChar (n / 4096 % 16), hexDigitChar (n / 256 % 16),
   hexDigitChar (n / 16 % 16), hexDigitChar (n % 16)]

/-- Decimal digits of a natural number, most significant first; the fuel
is only there to make the recursion structural and any fuel above the
number itself is enough. -/
def natDigitsGo : Nat → Nat → List Char
  | 0, _ => []
  | fuel + 1, n =>
    if n < 10 then [digitChar n] else natDigitsGo fuel (n / 10) ++ [digitChar (n % 10)]

/-- The decimal rendering of a natural number. -/
def natDigits (n : Nat) : List Char := natDigitsGo (n + 1) n

/-- The decimal rendering of a Python `int` (`repr`), as `json.dumps`
prints numbers. -/
def intDigits (n : Int) : List Char :=
  if n < 0 then '-' :: natDigits (-n).toNat else natDigits n.toNat

/-- The escape of one character inside a JSON string literal, following
`json.dumps`'s default `ensure_ascii` policy: quote, backslash and the
five short escapes; `\uXXXX` for other control characters and for every
character above tilde, astral characters as a surrogate pair. -/
def escChar (c : Char) : List Char :=
  let v := c.toNat
  if c = '"' then ['\\', '"']
  else if c = '\\' then ['\\', '\\']
  else if v = 8 then ['\\', 'b']
  else if v = 12 then ['\\', 'f']
  else if v = 10 then ['\\', 'n']
  else if v = 13 then ['\\', 'r']
  else if v = 9 then ['\\', 't']
  else if v < 32 ∨ 127 ≤ v then
    if v < 65536 then '\\' :: 'u' :: hex4 v
    else
      let u := v - 65536
      ('\\' :: 'u' :: hex4 (55296 + u / 1024)) ++ ('\\' :: 'u' :: hex4 (56320 + u % 1024))
  else [c]

/-- A JSON string literal: quote, escaped characters, quote. -/
def strLit (s : String) : List Char := '"' :: (s.data.map escChar).flatten ++ ['"']

mutual

/-- Python `json.dumps` with its default separators (`", "` and `": "`)
and `ensure_ascii` escaping, as the character list of the produced text. -/
def Json.dumps : Json → List Char
  | .null => ['n', 'u', 'l', 'l']
  | .num n => intDigits n
  | .bool true => ['t', 'r', 'u', 'e']
  | .str s => strLit s
  | .bool false => ['f', 'a', 'l', 's', 'e']
  | .arr [] => ['[', ']']
  | .arr (x :: rest) => '[' :: (Json.dumps x ++ Json.dumpsList rest) ++ [']']
  | .obj [] => ['\x7b', '\x7d']
  | .obj ((k, v) :: rest) =>
    '\x7b' :: ((strLit k ++ ':' :: ' ' :: Json.dumps v) ++ Json.dumpsMembers rest) ++ ['\x7d']

/-- The remaining elements of an array, each preceded by `", "`. -/
def Json.dumpsList : List Json → List Char
  | [] => []
  | x :: rest => ',' :: ' ' :: (Json.dumps x ++ Json.dumpsList rest)

/-- The remaining members of an object, each preceded by `", "`. -/
def Json.dumpsMembers : List (String × Json) → List Char
  | [] => []
  | (k, v) :: rest =>
    ',' :: ' ' :: ((strLit k ++ ':' :: ' ' :: Json.dumps v) ++ Json.dumpsMembers rest)

end

/-- JSON whitespace, as `json.loads` skips it. -/
def isWsChar (c : Char) : Bool := c = ' ' || c = '\t' || c = '\n' || c = '\r'

/-- Drop leading JSON whitespace. -/
def skipWs : List Char → List Char
  | [] => []
  | c :: rest => if isWsChar c then skipWs rest else c :: rest

/-- Whether a character is a decimal digit. -/
def isDigitChar (c : Char) : Bool := 48 ≤ c.toNat && c.toNat ≤ 57

/-- The value of a decimal digit character. -/
def digitVal (c : Char) : Nat := c.toNat - 48

/-- The value of a hexadecimal digit character, either case. -/
def hexVal (c : Char) : Option Nat :=
  if 48 ≤ c.toNat ∧ c.toNat ≤ 57 then some (c.toNat - 48)
  else if 97 ≤ c.toNat ∧ c.toNat ≤ 102 then some (c.toNat - 87)
  else if 65 ≤ c.toNat ∧ c.toNat ≤ 70 then some (c.toNat - 55)
  else none

/-- Consume a maximal run of decimal digits, extending the accumulator. -/
def munchNat : Nat → List Char → Nat × List Char
  | acc, [] => (acc, [])
  | acc, c :: rest =>
    if isDigitChar c then munchNat (acc * 10 + digitVal c) rest else (acc, c :: rest)

/-- The integer part of a JSON number: `0` or a nonzero digit followed by
more digits (`json.loads` matches `0|[1-9][0-9]*`, so a leading zero ends
the token immediately). -/
def parseUIntToken : List Char → Option (Nat × List Char)
  | [] => none
  | c :: rest =>
    if c = '0' then some (0, rest)
    else if isDigitChar c then some (munchNat (digitVal c) rest)
    else none

/-- A JSON integer with optional minus sign. -/
def parseIntToken : List Char → Option (Int × List Char)
  | [] => none
  | c :: rest =>
    if c = '-' then
      match parseUIntToken rest with
      | some (n, r) => some (-(n : Int), r)
      | none => none
    else
      match parseUIntToken (c :: rest) with
      | some (n, r) => some ((n : Int), r)
      | none => none

/-- Whether the remaining input continues the number with a fraction or
exponent.  Python would parse such a number as a `float`; floats are
outside this model, so the parser rejects them. -/
def floatStart : List Char → Bool
  | [] => false
  | c :: _ => c = '.' || c = 'e' || c = 'E'

/-- A JSON number restricted to the integers. -/
def parseNumToken (input : List Char) : Option (Json × List Char) :=
  match parseIntToken input with
  | some (i, r) => if floatStart r then none else some (.num i, r)
  | none => none

/-- The low-surrogate half of a `\uXXXX\uXXXX` pair: expects another
`\uXXXX` escape whose value lies in the low-surrogate range and combines
it with the high surrogate `u` into one astral scalar. -/
def strPair (u : Nat) : List Char → Option (Option Char × List Char)
  | s1 :: s2 :: g1 :: g2 :: g3 :: g4 :: rest4 =>
    if s1 = '\\' ∧ s2 = 'u' then
      match hexVal g1, hexVal g2, hexVal g3, hexVal g4 with
      | some y1, some y2, some y3, some y4 =>
        let w := ((y1 * 16 + y2) * 16 + y3) * 16 + y4
        if 56320 ≤ w ∧ w < 57344 then
          some (some (Char.ofNat (65536 + (u - 55296) * 1024 + (w - 56320))), rest4)
        else none
      | _, _, _, _ => none
    else none
  | _ => none

/-- A `\uXXXX` escape: four hexadecimal digits; a value outside the
surrogate range is a scalar of its own, a high surrogate must be followed
by a low surrogate (`strPair`), a lone low surrogate is rejected. -/
def strU : List Char → Option (Option Char × List Char)
  | h1 :: h2 :: h3 :: h4 :: rest3 =>
    match hexVal h1, hexVal h2, hexVal h3, hexVal h4 with
    | some x1, some x2, some x3, some x4 =>
      let u := ((x1 * 16 + x2) * 16 + x3) * 16 + x4
      if u < 55296 ∨ 57343 < u then some (some (Char.ofNat u), rest3)
      else if u < 56320 then strPair u rest3
      else none
    | _, _, _, _ => none
  | _ => none

/-- The character after a backslash: the eight short escapes or a
`\uXXXX` escape. -/
def strEsc : List Char → Option (Option Char × List Char)
  | [] => none
  | e :: rest2 =>
    if e = '"' then some (some '"', rest2)
    else if e = '\\' then some (some '\\', rest2)
    else if e = '/' then some (some '/', rest2)
    else if e = 'b' then some (some (Char.ofNat 8), rest2)
    else if e = 'f' then some (some (Char.ofNat 12), rest2)
    else if e = 'n' then some (some (Char.ofNat 10), rest2)
    else if e = 'r' then some (some (Char.ofNat 13), rest2)
    else if e = 't' then some (some (Char.ofNat 9), rest2)
    else if e = 'u' then strU rest2
    else none

/-- One scanning step inside a JSON string literal, as `json.loads` scans
it in strict mode: `c` is the next character, `rest` what follows it.
Yields `(none, r)` at the closing quote, `(some ch, r)` for one decoded
character (raw, short escape, or `\uXXXX` escape with surrogate pairs
recombined), and `none` on malformed input (raw control characters, bad
escapes).  A lone surrogate escape is rejected: Python would build a
non-scalar `str`, which `Char` cannot represent. -/
def strStep (c : Char) (rest : List Char) : Option (Option Char × List Char) :=
  if c = '"' then some (none, rest)
  else if c = '\\' then strEsc rest
  else if c.toNat < 32 then none
  else some (some c, rest)

/-- The scanning loop of a string literal: one `strStep` per decoded
character until the closing quote.  Every step consumes at least one
character, so any fuel above the input length is enough. -/
def parseStrGo : Nat → List Char → Option (List Char × List Char)
  | 0, _ => none
  | fuel + 1, input =>
    match input with
    | [] => none
    | c :: rest =>
      match strStep c rest with
      | some (none, r) => some ([], r)
      | some (some ch, r) =>
        match parseStrGo fuel r with
        | some (cs, r2) => some (ch :: cs, r2)
        | none => none
      | none => none

/-- The body of a JSON string literal after the opening quote: the
decoded characters and the input after the closing quote. -/
def parseStrBody (input : List Char) : Option (List Char × List Char) :=
  parseStrGo (input.length + 1) input

/-- Python's object construction: the parsed member list is poured into a
dict, later values for a repeated key overwriting earlier ones in place. -/
def buildObj (pairs : List (String × Json)) : List (String × Json) :=
  pairs.foldl (fun acc kv => objInsert acc kv.1 kv.2) []

mutual

/-- One JSON value at the head of the input (no leading whitespace),
returning it with the unconsumed remainder, dispatching on the first
character as `json.loads`'s scanner does.  The fuel only bounds the
nesting the parser will enter; `jsonLoads` supplies more than the input
length can need. -/
def parseVal : Nat → List Char → Option (Json × List Char)
  | 0, _ => none
  | fuel + 1, input =>
    match input with
    | [] => none
    | c :: rest =>
      if c = '"' then
        match parseStrBody rest with
        | some (cs, r) => some (.str (String.mk cs), r)
        | none => none
      else if c = '[' then
        match skipWs rest with
        | [] => none
        | c2 :: r2 =>
          if c2 = ']' then some (.arr [], r2)
          else
            match parseElems fuel (c2 :: r2) with
            | some (xs, r) => some (.arr xs, r)
            | none => none
      else if c = '\x7b' then
        match skipWs rest with
        | [] => none
        | c2 :: r2 =>
          if c2 = '\x7d' then some (.obj [], r2)
          else
            match parseMembers fuel (c2 :: r2) with
            | some (pairs, r) => some (.obj (buildObj pairs), r)
            | none => none
      else if c = 'n' then
        match rest with
        | 'u' :: 'l' :: 'l' :: r => some (.null, r)
        | _ => none
      else if c = 't' then
        match rest with
        | 'r' :: 'u' :: 'e' :: r => some (.bool true, r)
        | _ => none
      else if c = 'f' then
        match rest with
        | 'a' :: 'l' :: 's' :: 'e' :: r => some (.bool false, r)
        | _ => none
      else if c = '-' ∨ isDigitChar c then parseNumToken (c :: rest)
      else none

/-- The elements of a non-empty array, starting at the first element and
consuming through the closing bracket. -/
def parseElems : Nat → List Char → Option (List Json × List Char)
  | 0, _ => none
  | fuel + 1, input =>
    match parseVal fuel input with
    | some (v, r) =>
      match skipWs r with
      | [] => none
      | c :: r2 =>
        if c = ']' then some ([v], r2)
        else if c = ',' then
          match parseElems fuel (skipWs r2) with
          | some (vs, r3) => some (v :: vs, r3)
          | none => none
        else none
    | none => none

/-- The members of a non-empty object, starting at the first key and
consuming through the closing brace. -/
def parseMembers : Nat → List Char → Option (List (String × Json) × List Char)
  | 0, _ => none
  | fuel + 1, input =>
    match input with
    | [] => none
    | c0 :: krest =>
      if c0 = '"' then
        match parseStrBody krest with
        | some (kcs, r1) =>
          match skipWs r1 with
          | [] => none
          | c :: r2 =>
            if c = ':' then
              match parseVal fuel (skipWs r2) with
              | some (v, r3) =>
                match skipWs r3 with
                | [] => none
                | c2 :: r4 =>
                  if c2 = '\x7d' then some ([(String.mk kcs, v)], r4)
                  else if c2 = ',' then
                    match parseMembers fuel (skipWs r4) with
                    | some (ps, r5) => some ((String.mk kcs, v) :: ps, r5)
                    | none => none
                  else none
              | none => none
            else none
        | none => none
      else none

end

/-- Python `json.loads`: one value surrounded by optional whitespace,
nothing after it. -/
def jsonLoads (s : String) : Option Json :=
  match parseVal (s.data.length + 1) (skipWs s.data) with
  | some (v, rest) =>
    match skipWs rest with
    | [] => some v
    | _ => none
  | none => none

/-- Keys of an object member list are pairwise distinct. -/
def Json.keysFresh : List (String × Json) → Bool
  | [] => true
  | (k, _) :: rest => !(rest.any (fun p => p.1 == k)) && Json.keysFresh rest

mutual

/-- A structured value that a Python value can denote: every object has
pairwise-distinct keys (a dict cannot hold a key twice). -/
def Json.wf : Json → Bool
  | .null => true
  | .bool _ => true
  | .num _ => true
  | .str _ => true
  | .arr xs => Json.wfList xs
  | .obj kvs => Json.keysFresh kvs && Json.wfMembers kvs

/-- Every element of the array is well-formed. -/
def Json.wfList : List Json → Bool
  | [] => true
  | x :: rest => Json.wf x && Json.wfList rest

/-- Every member value of the object is well-formed. -/
def Json.wfMembers : List (String × Json) → Bool
  | [] => true
  | (_, v) :: rest => Json.wf v && Json.wfMembers rest

end

/-- The accessor's state: the captured environment snapshot, the vendor
name prefix for environment variables, and the four decoded definitions
with the class defaults of the source. -/
structure Config where
  environmentVariables : List (String × String)
  envPre : String
  routesDef : Option Json := some (Json.arr [])
  relationshipsDef : Option Json := some (Json.arr [])
  variablesDef : Option Json := some (Json.arr [])
  applicationDef : Option Json := some (Json.arr [])
deriving DecidableEq

/-- `Config.get_value`: upper-case the logical name, prepend the prefix,
and look it up in the snapshot; `None` when absent. -/
def Config.get_value (c : Config) (name : String) : Option String :=
  c.environmentVariables.lookup (c.envPre ++ pyUpper name)

/-- `Config.is_valid_platform`: Python truthiness of
`get_value('APPLICATION_NAME')`. -/
def Config.is_valid_platform (c : Config) : Bool :=
  pyTruthyStr (c.get_value "APPLICATION_NAME")

/-- `Config.in_build`: a valid platform whose `ENVIRONMENT` variable is
falsy (absent or empty). -/
def Config.in_build (c : Config) : Bool :=
  c.is_valid_platform && !(pyTruthyStr (c.get_value "ENVIRONMENT"))

/-- `Config.credentials`: the two phase gates, then
`relationship not in relationshipsDef.keys()`, then the source's bound
check `index not in range(len(relationshipsDef))` — against the length of
the whole relationship table — then `relationshipsDef[relationship][index]`. -/
def Config.credentials (c : Config) (relationship : String) (index : Nat) : Except PyErr Json :=
  if !c.is_valid_platform then .error .platformUnavailable
  else if c.in_build then .error .buildPhase
  else
    match c.relationshipsDef with
    | some (.obj kvs) =>
      if (kvs.lookup relationship).isNone then .error .relationshipNotFound
      else if !(decide (index < kvs.length)) then .error .relationshipIndex
      else
        match kvs.lookup relationship with
        | some (.arr creds) =>
          match creds.get? index with
          | some cred => .ok cred
          | none => .error .indexError
        | some (.obj _) => .error .keyError
        | some _ => .error .typeError
        | none => .error .keyError
    | _ => .error .attributeError

/-- `Config.variable`: default when not on the platform, else the
`variablesDef` entry or the default (named `getVariable` because
`variable` is a Lean keyword). -/
def Config.getVariable (c : Config) (name : String) (default : Option Json) :
    Except PyErr (Option Json) :=
  if !c.is_valid_platform then .ok default
  else
    match c.variablesDef with
    | some (.obj kvs) =>
      match kvs.lookup name with
      | some v => .ok (some v)
      | none => .ok default
    | _ => .error .attributeError

/-- `Config.variables`: the whole variables definition, gated on the
platform being valid. -/
def Config.variables (c : Config) : Except PyErr (Option Json) :=
  if !c.is_valid_platform then .error .platformUnavailable
  else .ok c.variablesDef

/-- The `routes` property: gated on a valid platform outside the build
phase. -/
def Config.routes (c : Config) : Except PyErr (Option Json) :=
  if !c.is_valid_platform then .error .platformUnavailable
  else if c.in_build then .error .buildPhase
  else .ok c.routesDef

/-- The scan inside `Config.get_route`: walk the route table in order;
at the first route whose `id` member equals the wanted id, set its `url`
member to the table key and return it.  The returned table reflects that
in-place update (`route['url'] = url` mutates the stored dict). -/
def routeScan (route_id : String) : List (String × Json) →
    Except PyErr (Json × List (String × Json))
  | [] => .error .routeNotFound
  | (url, route) :: rest =>
    match route with
    | .obj kvs =>
      match kvs.lookup "id" with
      | none => .error .keyError
      | some idv =>
        if idv = Json.str route_id then
          let route2 := Json.obj (objInsert kvs "url" (Json.str url))
          .ok (route2, (url, route2) :: rest)
        else
          match routeScan route_id rest with
          | .ok (r, rest2) => .ok (r, (url, route) :: rest2)
          | .error e => .error e
    | _ => .error .typeError

/-- `Config.get_route`: iterate `self.routes.items()` and return the
first matching route; the accessor comes back as well because the match
is written into the stored route table. -/
def Config.get_route (c : Config) (route_id : String) : Except PyErr (Json × Config) :=
  match c.routes with
  | .error e => .error e
  | .ok (some (.obj kvs)) =>
    match routeScan route_id kvs with
    | .ok (r, kvs2) => .ok (r, { c with routesDef := some (.obj kvs2) })
    | .error e => .error e
  | .ok _ => .error .attributeError

/-- `Config.application`: the application definition, gated on the
platform being valid. -/
def Config.application (c : Config) : Except PyErr (Option Json) :=
  if !c.is_valid_platform then .error .platformUnavailable
  else .ok c.applicationDef

/-- `Config.on_enterprise`: valid platform and `MODE` equal to
`enterprise`. -/
def Config.on_enterprise (c : Config) : Bool :=
  c.is_valid_platform && (c.get_value "MODE" == some "enterprise")

/-- `Config.on_production`: the early return under the source's guard
`not is_valid_platform() and not in_build()`, else compare `BRANCH`
against the production branch name. -/
def Config.on_production (c : Config) : Bool :=
  if !c.is_valid_platform && !c.in_build then false
  else c.get_value "BRANCH" == some (if c.on_enterprise then "production" else "master")

/-- The class attribute `directVariables`: properties available in both
phases, mapped to the environment suffix holding their value.  The key
for the tree id is the source's literal `treeID`. -/
def Config.directVariables : List (String × String) :=
  [("project", "PROJECT"), ("appDir", "APP_DIR"), ("applicationName", "APPLICATION_NAME"),
   ("treeID", "TREE_ID"), ("entropy", "PROJECT_ENTROPY")]

/-- The class attribute `directVariablesRuntime`: runtime-only properties. -/
def Config.directVariablesRuntime : List (String × String) :=
  [("branch", "BRANCH"), ("environment", "ENVIRONMENT"),
   ("documentRoot", "DOCUMENT_ROOT"), ("smtpHost", "SMTP_HOST")]

/-- `Config.__getattr__`: the magic property lookup over the two
catalogs, with its three failure modes. -/
def Config.getattr (c : Config) (p : String) : Except PyErr (Option String) :=
  if !c.is_valid_platform then .error .platformUnavailable
  else
    let isBuildVar := (Config.directVariables.lookup p).isSome
    let isRuntimeVar := (Config.directVariablesRuntime.lookup p).isSome
    if c.in_build && isRuntimeVar then .error .buildPhase
    else if isBuildVar then
      match Config.directVariables.lookup p with
      | some sfx => .ok (c.get_value sfx)
      | none => .error .keyError
    else if isRuntimeVar then
      match Config.directVariablesRuntime.lookup p with
      | some sfx => .ok (c.get_value sfx)
      | none => .error .keyError
    else .error .unknownProperty

/-- `Config.isset`: false off the platform; during build membership in the
build catalog; at runtime membership in either catalog.  (The source's
trailing `and config_property is not None` is identically true for a
string property name.) -/
def Config.isset (c : Config) (p : String) : Bool :=
  if !c.is_valid_platform then false
  else
    let isBuildVar := (Config.directVariables.lookup p).isSome
    let isRuntimeVar := (Config.directVariablesRuntime.lookup p).isSome
    if c.in_build then isBuildVar
    else isBuildVar || isRuntimeVar

/-- `Config.decode`: `json.loads(base64.decodebytes(variable))` with the
source's `except json.decoder.JSONDecodeError` clause, which only prints
and falls through — so a JSON failure yields Python `None` (`Except.ok
none`) while a base64 or UTF-8 failure propagates out. -/
def Config.decode (s : String) : Except PyErr (Option Json) :=
  match b64DecodeBytes s.data with
  | .error _ => .error .binasciiError
  | .ok bytes =>
    match utf8Dec bytes with
    | none => .error .unicodeDecodeError
    | some chars =>
      match jsonLoads (String.mk chars) with
      | some v => .ok (some v)
      | none => .ok none

/-- `Config.__init__`: capture the snapshot and prefix, then — on a valid
platform — decode `ROUTES` and `RELATIONSHIPS` outside the build phase and
`VARIABLES` and `APPLICATION` in either phase, each only when the raw
value is truthy.  An exception escaping `decode` aborts construction. -/
def Config.init (environment_variables : List (String × String)) (env_pre : String) :
    Except PyErr Config := do
  let c0 : Config := { environmentVariables := environment_variables, envPre := env_pre }
  if !c0.is_valid_platform then return c0
  let c1 ←
    match c0.get_value "ROUTES" with
    | some raw =>
      if !c0.in_build && pyTruthyStr (some raw) then
        (Config.decode raw).map fun r => { c0 with routesDef := r }
      else pure c0
    | none => pure c0
  let c2 ←
    match c1.get_value "RELATIONSHIPS" with
    | some raw =>
      if !c1.in_build && pyTruthyStr (some raw) then
        (Config.decode raw).map fun r => { c1 with relationshipsDef := r }
      else pure c1
    | none => pure c1
  let c3 ←
    match c2.get_value "VARIABLES" with
    | some raw =>
      if pyTruthyStr (some raw) then
        (Config.decode raw).map fun r => { c2 with variablesDef := r }
      else pure c2
    | none => pure c2
  match c3.get_value "APPLICATION" with
  | some raw =>
    if pyTruthyStr (some raw) then
      (Config.decode raw).map fun r => { c3 with applicationDef := r }
    else pure c3
  | none => pure c3

/-- Platform-side encoding of a structured value, as the test suite's
`encode` does it: `base64.b64encode(json.dumps(value).encode('utf-8'))`. -/
def encodePlatformVariable (v : Json) : String :=
  String.mk (b64Encode (utf8Enc (String.mk (Json.dumps v))))

/-- Whether a stored route is an object carrying an `id` member (what
`get_route` dereferences on each scanned entry). -/
def routeHasId : Json → Bool
  | .obj kvs => (kvs.lookup "id").isSome
  | _ => false

/-- Whether every route stored in the table satisfies `routeHasId`. -/
def routeTableWF : List (String × Json) → Bool
  | [] => true
  | (_, route) :: rest => routeHasId route && routeTableWF rest

/-- Whether a stored route is an object whose `id` member equals the
queried id. -/
def routeIdMatches (rid : String) (route : Json) : Bool :=
  match route with
  | .obj kvs => decide (kvs.lookup "id" = some (Json.str rid))
  | _ => false


/-- A valid runtime snapshot with no further variables set. -/
def envRuntimeX : List (String × String) :=
  [("PLATFORM_APPLICATION_NAME", "app"), ("PLATFORM_ENVIRONMENT", "x")]

/-- The accessor over the empty snapshot (not on the platform). -/
def cfgEmptyEnv : Config :=
  { environmentVariables := [], envPre := "PLATFORM_" }

/-- A snapshot whose `ENVIRONMENT` variable is present but empty. -/
def cfgEmptyEnvironmentValue : Config :=
  { environmentVariables :=
      [("PLATFORM_APPLICATION_NAME", "app"), ("PLATFORM_ENVIRONMENT", "")],
    envPre := "PLATFORM_" }

/-- A valid runtime snapshot with no catalog variables populated. -/
def cfgRuntimeBare : Config :=
  { environmentVariables :=
      [("PLATFORM_APPLICATION_NAME", "app"), ("PLATFORM_ENVIRONMENT", "feature-x")],
    envPre := "PLATFORM_" }

/-- A valid runtime snapshot carrying `PLATFORM_TREE_ID`. -/
def cfgTree : Config :=
  { environmentVariables :=
      [("PLATFORM_APPLICATION_NAME", "app"), ("PLATFORM_ENVIRONMENT", "x"),
       ("PLATFORM_TREE_ID", "abc123")],
    envPre := "PLATFORM_" }

/-- A relationship table with a single relationship whose credential
sequence has two entries. -/
def dbRelationships : List (String × Json) :=
  [("database", Json.arr
    [Json.obj [("scheme", Json.str "mysql")], Json.obj [("scheme", Json.str "pgsql")]])]

/-- A runtime accessor over `dbRelationships`. -/
def cfgOneRelTwoCreds : Config :=
  { environmentVariables := envRuntimeX, envPre := "PLATFORM_",
    relationshipsDef := some (Json.obj dbRelationships) }

/-- A runtime accessor with a single stored route, not yet carrying a
`url` member. -/
def cfgOneRoute : Config :=
  { environmentVariables := envRuntimeX, envPre := "PLATFORM_",
    routesDef := some (Json.obj [("http://x", Json.obj [("id", Json.str "a")])]) }

/-- `cfgOneRoute` after `get_route` has written the `url` member into the
stored route. -/
def cfgOneRouteTouched : Config :=
  { environmentVariables := envRuntimeX, envPre := "PLATFORM_",
    routesDef := some (Json.obj
      [("http://x", Json.obj [("id", Json.str "a"), ("url", Json.str "http://x")])]) }

/-- A route table holding two routes with the same id, in a fixed order. -/
def dupRoutesTable : List (String × Json) :=
  [("http://x", Json.obj [("id", Json.str "a"), ("kind", Json.str "first")]),
   ("http://y", Json.obj [("id", Json.str "a"), ("kind", Json.str "second")])]

/-- A runtime accessor over `dupRoutesTable`. -/
def cfgDupRoutes : Config :=
  { environmentVariables := envRuntimeX, envPre := "PLATFORM_",
    routesDef := some (Json.obj dupRoutesTable) }

/-- A build-phase snapshot whose `VARIABLES` variable holds valid base64
of the byte `\x7b` — not valid JSON. -/
def envMalformedVariables : List (String × String) :=
  [("PLATFORM_APPLICATION_NAME", "app"), ("PLATFORM_VARIABLES", "ew==")]

mutual

/-- An upper bound on the recursion depth `parseVal` enters while reading
the serialization of a value: one unit per `parseVal` call plus one per
element/member step. -/
def Json.fuelNeed : Json → Nat
  | .arr [] => 1
  | .arr (x :: rest) => 1 + Json.fuelNeedElems (x :: rest)
  | .obj [] => 1
  | .obj (m :: rest) => 1 + Json.fuelNeedMembers (m :: rest)
  | _ => 1

/-- Fuel bound for the element loop of a non-empty array. -/
def Json.fuelNeedElems : List Json → Nat
  | [] => 0
  | x :: rest => 1 + Json.fuelNeed x + Json.fuelNeedElems rest

/-- Fuel bound for the member loop of a non-empty object. -/
def Json.fuelNeedMembers : List (String × Json) → Nat
  | [] => 0
  | (_, v) :: rest => 1 + Json.fuelNeed v + Json.fuelNeedMembers rest

end

/-- The remainder after a serialized value never extends a number token:
it is empty or starts with a delimiter — never a digit, a dot or an
exponent mark. -/
def numSafe : List Char → Bool
  | [] => true
  | c :: _ => !(isDigitChar c) && !(c = '.') && !(c = 'e') && !(c = 'E')

/-! ## Theorems -/

/-- Truthiness of `get_value` unfolded on both constructors. -/
theorem pyTruthyStr_eq_true_iff (o : Option String) :
    pyTruthyStr o = true ↔ ∃ v, o = some v ∧ v ≠ "" := by
  cases o with
  | none => simp [pyTruthyStr]
  | some s => simp [pyTruthyStr]

/-- C4 (counterexample).  A snapshot whose `ENVIRONMENT` variable is
present but empty is classified as build phase, although the claim
requires `ENVIRONMENT` to be absent from the snapshot for `inBuild()` to
hold. -/
theorem in_build_true_with_empty_environment_present :
    Config.in_build cfgEmptyEnvironmentValue = true
    ∧ Config.get_value cfgEmptyEnvironmentValue "ENVIRONMENT" = some "" :=
  ⟨rfl, rfl⟩

/-- C4 (amended).  `is_valid_platform` holds exactly when the prefixed
`APPLICATION_NAME` is present and non-empty; `in_build` holds exactly when
the platform is valid and the prefixed `ENVIRONMENT` is absent *or empty*
(Python truthiness, not mere presence); hence `in_build` implies
`is_valid_platform`, and the runtime phase is exactly
`is_valid_platform && !in_build`. -/
theorem phase_predicates_characterization (c : Config) :
    (c.is_valid_platform = true ↔ ∃ v, c.get_value "APPLICATION_NAME" = some v ∧ v ≠ "")
    ∧ (c.in_build = true ↔ c.is_valid_platform = true ∧
        (c.get_value "ENVIRONMENT" = none ∨ c.get_value "ENVIRONMENT" = some ""))
    ∧ (c.in_build = true → c.is_valid_platform = true) := by
  refine ⟨pyTruthyStr_eq_true_iff _, ?_, ?_⟩
  · unfold Config.in_build
    cases hE : c.get_value "ENVIRONMENT" with
    | none => simp [hE, pyTruthyStr]
    | some s =>
      by_cases hs : s = "" <;> simp [hE, pyTruthyStr, hs]
  · unfold Config.in_build
    intro h
    exact ((Bool.and_eq_true _ _).mp h).1

/-- C5.  `on_production` never raises (it is a total boolean observation,
legal in any phase): it is false whenever the platform is invalid, and on
a valid platform it holds exactly when `BRANCH` equals the production
branch name — `production` under enterprise mode, `master` otherwise. -/
theorem on_production_characterization (c : Config) :
    c.on_production = (c.is_valid_platform &&
      (c.get_value "BRANCH" == some (if c.on_enterprise then "production" else "master"))) := by
  unfold Config.on_production Config.in_build
  cases hv : c.is_valid_platform <;> simp [hv]

/-- C6.  On any snapshot whose prefixed `APPLICATION_NAME` is absent,
every gated accessor fails with the platform-unavailable error, while the
non-failing probes return their documented defaults: `isset` is false and
`getVariable` returns the given default. -/
theorem invalid_platform_gates_all_accessors (c : Config)
    (h : c.get_value "APPLICATION_NAME" = none)
    (p rid rel name : String) (index : Nat) (default : Option Json) :
    c.getattr p = .error .platformUnavailable
    ∧ c.routes = .error .platformUnavailable
    ∧ c.get_route rid = .error .platformUnavailable
    ∧ c.credentials rel index = .error .platformUnavailable
    ∧ c.variables = .error .platformUnavailable
    ∧ c.application = .error .platformUnavailable
    ∧ c.isset p = false
    ∧ c.getVariable name default = .ok default := by
  have hv : c.is_valid_platform = false := by
    simp [Config.is_valid_platform, h, pyTruthyStr]
  refine ⟨?_, ?_, ?_, ?_, ?_, ?_, ?_, ?_⟩
  · simp [Config.getattr, hv]
  · simp [Config.routes, hv]
  · simp [Config.get_route, Config.routes, hv]
  · simp [Config.credentials, hv]
  · simp [Config.variables, hv]
  · simp [Config.application, hv]
  · simp [Config.isset, hv]
  · simp [Config.getVariable, hv]

/-- C6 (witness).  The empty snapshot at the default prefix exercises
every conjunct of `invalid_platform_gates_all_accessors`. -/
theorem invalid_platform_gates_all_accessors_witness :
    Config.getattr cfgEmptyEnv "branch" = .error .platformUnavailable
    ∧ Config.routes cfgEmptyEnv = .error .platformUnavailable
    ∧ Config.get_route cfgEmptyEnv "main" = .error .platformUnavailable
    ∧ Config.credentials cfgEmptyEnv "database" 0 = .error .platformUnavailable
    ∧ Config.variables cfgEmptyEnv = .error .platformUnavailable
    ∧ Config.application cfgEmptyEnv = .error .platformUnavailable
    ∧ Config.isset cfgEmptyEnv "project" = false
    ∧ Config.getVariable cfgEmptyEnv "somevar" (some (Json.str "fallback"))
        = .ok (some (Json.str "fallback")) :=
  invalid_platform_gates_all_accessors cfgEmptyEnv rfl
    "branch" "main" "database" "somevar" 0 (some (Json.str "fallback"))

/-- C10.  On a valid platform `isset` depends only on catalog membership
and the phase: during build it is membership in the both-phases catalog,
at runtime membership in either catalog — the snapshot's variable values
never enter the answer. -/
theorem isset_decides_catalog_membership_and_phase (c : Config)
    (h : c.is_valid_platform = true) (p : String) :
    c.isset p = (if c.in_build then (Config.directVariables.lookup p).isSome
                 else ((Config.directVariables.lookup p).isSome
                       || (Config.directVariablesRuntime.lookup p).isSome)) := by
  simp [Config.isset, h]

/-- C10 (witness).  A valid runtime snapshot that does not set
`PLATFORM_BRANCH` at all: `isset "branch"` is still decided purely by the
catalogs and the phase (and is in fact true). -/
theorem isset_decides_catalog_membership_and_phase_witness :
    Config.isset cfgRuntimeBare "branch"
      = (if Config.in_build cfgRuntimeBare
         then (Config.directVariables.lookup "branch").isSome
         else ((Config.directVariables.lookup "branch").isSome
               || (Config.directVariablesRuntime.lookup "branch").isSome)) :=
  isset_decides_catalog_membership_and_phase cfgRuntimeBare rfl "branch"

/-- C3.  The class docstring and the tests promise a `treeId` property
resolved through `TREE_ID`, but the catalog key is the literal `treeID`:
on a valid runtime snapshot carrying `PLATFORM_TREE_ID`, accessing
`treeId` raises the unknown-property `ValueError` while `treeID`
resolves. -/
theorem getattr_treeId_is_unknown_property :
    Config.getattr cfgTree "treeId" = .error .unknownProperty
    ∧ Config.getattr cfgTree "treeID" = .ok (some "abc123") :=
  ⟨rfl, rfl⟩

/-- C2.  `credentials` checks the index against the number of
relationships in the table, not against the length of the named
relationship's credential sequence: with a single relationship
`database` holding two credential sets, index `1` is refused with the
relationship-index `ValueError` although the sequence has a second
element, while index `0` still resolves. -/
theorem credentials_index_bound_is_table_size :
    Config.credentials cfgOneRelTwoCreds "database" 1 = .error .relationshipIndex
    ∧ Config.credentials cfgOneRelTwoCreds "database" 0
        = .ok (Json.obj [("scheme", Json.str "mysql")]) :=
  ⟨rfl, rfl⟩

/-- C1.  A malformed `PLATFORM_VARIABLES` — valid base64 of the single
byte `\x7b`, which is not valid JSON — does not abort construction: the
`except` clause swallows the `JSONDecodeError` and construction succeeds
with `variablesDef` set to Python `None`, exactly the silent default
state the spec forbids. -/
theorem decode_swallows_json_error_at_construction :
    Config.decode "ew==" = .ok none
    ∧ Config.init envMalformedVariables "PLATFORM_"
      = .ok { environmentVariables := envMalformedVariables,
              envPre := "PLATFORM_",
              routesDef := some (Json.arr []),
              relationshipsDef := some (Json.arr []),
              variablesDef := none,
              applicationDef := some (Json.arr []) } :=
  ⟨rfl, rfl⟩

/-- C9 (counterexample).  `get_route` writes the computed `url` member
into the route object stored in the table: after one successful lookup
the accessor's state differs from what construction left there. -/
theorem get_route_mutates_route_table :
    Config.get_route cfgOneRoute "a"
      = .ok (Json.obj [("id", Json.str "a"), ("url", Json.str "http://x")], cfgOneRouteTouched)
    ∧ cfgOneRouteTouched ≠ cfgOneRoute :=
  ⟨rfl, by decide⟩


/-- The `routes` property reveals `routesDef` exactly when it returns
successfully. -/
theorem routes_ok_eq (c : Config) (o : Option Json) (h : c.routes = .ok o) :
    o = c.routesDef := by
  unfold Config.routes at h
  split at h
  · exact absurd h (by simp)
  · split at h
    · exact absurd h (by simp)
    · simpa using h.symm

/-- Shape of a successful `routeScan`: the input table splits at the
first match, whose entry alone is rewritten by inserting the `url`
member, and the rewritten entry is what is returned. -/
theorem routeScan_frame (rid : String) : ∀ kvs r kvs2,
    routeScan rid kvs = .ok (r, kvs2) →
    ∃ pre url rkvs post,
      kvs = pre ++ (url, Json.obj rkvs) :: post ∧
      kvs2 = pre ++ (url, Json.obj (objInsert rkvs "url" (Json.str url))) :: post ∧
      r = Json.obj (objInsert rkvs "url" (Json.str url))
  | [], r, kvs2, h => by simp [routeScan] at h
  | (url0, Json.null) :: rest, r, kvs2, h => by simp [routeScan] at h
  | (url0, Json.bool b) :: rest, r, kvs2, h => by simp [routeScan] at h
  | (url0, Json.num n) :: rest, r, kvs2, h => by simp [routeScan] at h
  | (url0, Json.str s) :: rest, r, kvs2, h => by simp [routeScan] at h
  | (url0, Json.arr xs) :: rest, r, kvs2, h => by simp [routeScan] at h
  | (url0, Json.obj kvs0) :: rest, r, kvs2, h => by
    rw [routeScan] at h
    split at h
    · exact absurd h (by simp)
    rename_i idv hlk
    split at h
    · rename_i hid
      obtain ⟨hre, hkv⟩ : Json.obj (objInsert kvs0 "url" (Json.str url0)) = r ∧
          (url0, Json.obj (objInsert kvs0 "url" (Json.str url0))) :: rest = kvs2 := by
        simpa using h
      exact ⟨[], url0, kvs0, rest, by simp, by simp [hkv.symm], hre.symm⟩
    · rename_i hid
      cases hrec : routeScan rid rest with
      | error e => rw [hrec] at h; exact absurd h (by simp)
      | ok pr =>
        obtain ⟨r0, rest2⟩ := pr
        rw [hrec] at h
        obtain ⟨hre, hkv⟩ : r0 = r ∧ (url0, Json.obj kvs0) :: rest2 = kvs2 := by
          simpa using h
        obtain ⟨pre, url, rkvs, post, h1, h2, h3⟩ :=
          routeScan_frame rid rest r0 rest2 hrec
        exact ⟨(url0, Json.obj kvs0) :: pre, url, rkvs, post,
          by simp [h1], by simp [hkv.symm, h2], by rw [hre.symm, h3]⟩

/-- C9 (amended).  The lookups other than `get_route` are pure reads of
the accessor (they return values, never a changed state); `get_route`
alone writes through: a successful call leaves the snapshot, the prefix
and the other three decoded definitions untouched, and rewrites exactly
the matched entry of the route table, setting its `url` member to its own
table key — which is also the route it returns. -/
theorem get_route_frame (c : Config) (rid : String) (r : Json) (c2 : Config)
    (h : c.get_route rid = .ok (r, c2)) :
    c2.environmentVariables = c.environmentVariables
    ∧ c2.envPre = c.envPre
    ∧ c2.relationshipsDef = c.relationshipsDef
    ∧ c2.variablesDef = c.variablesDef
    ∧ c2.applicationDef = c.applicationDef
    ∧ ∃ pre url rkvs post,
        c.routesDef = some (Json.obj (pre ++ (url, Json.obj rkvs) :: post))
        ∧ c2.routesDef = some (Json.obj
            (pre ++ (url, Json.obj (objInsert rkvs "url" (Json.str url))) :: post))
        ∧ r = Json.obj (objInsert rkvs "url" (Json.str url)) := by
  unfold Config.get_route at h
  split at h
  · exact absurd h (by simp)
  · rename_i kvs heq
    have hdef := routes_ok_eq c _ heq
    split at h
    · rename_i r0 kvs2 hscan
      obtain ⟨hre, hc⟩ : r0 = r ∧ ({ c with routesDef := some (.obj kvs2) } : Config) = c2 := by
        simpa using h
      obtain ⟨pre, url, rkvs, post, h1, h2, h3⟩ :=
        routeScan_frame rid kvs r0 kvs2 hscan
      subst hc
      refine ⟨rfl, rfl, rfl, rfl, rfl, pre, url, rkvs, post, ?_, ?_, ?_⟩
      · rw [← hdef, h1]
      · simp [h2]
      · rw [← hre, h3]
    · exact absurd h (by simp)
  · exact absurd h (by simp)

/-- C9 (amended, witness).  The one-route accessor: the successful lookup
keeps everything but the route table, which changes only at the matched
entry. -/
theorem get_route_frame_witness :
    Config.environmentVariables cfgOneRouteTouched = Config.environmentVariables cfgOneRoute
    ∧ Config.envPre cfgOneRouteTouched = Config.envPre cfgOneRoute
    ∧ Config.relationshipsDef cfgOneRouteTouched = Config.relationshipsDef cfgOneRoute
    ∧ Config.variablesDef cfgOneRouteTouched = Config.variablesDef cfgOneRoute
    ∧ Config.applicationDef cfgOneRouteTouched = Config.applicationDef cfgOneRoute
    ∧ ∃ pre url rkvs post,
        Config.routesDef cfgOneRoute = some (Json.obj (pre ++ (url, Json.obj rkvs) :: post))
        ∧ Config.routesDef cfgOneRouteTouched = some (Json.obj
            (pre ++ (url, Json.obj (objInsert rkvs "url" (Json.str url))) :: post))
        ∧ Json.obj [("id", Json.str "a"), ("url", Json.str "http://x")]
            = Json.obj (objInsert rkvs "url" (Json.str url)) :=
  get_route_frame cfgOneRoute "a"
    (Json.obj [("id", Json.str "a"), ("url", Json.str "http://x")]) cfgOneRouteTouched rfl

/-- `get_route` over an object-shaped route table is the scan plus the
write-back of the updated table. -/
theorem get_route_eq_scan (c : Config) (rid : String) (kvs : List (String × Json))
    (h : c.routes = .ok (some (.obj kvs))) :
    c.get_route rid = (match routeScan rid kvs with
      | .ok (r, kvs2) => .ok (r, { c with routesDef := some (.obj kvs2) })
      | .error e => .error e) := by
  unfold Config.get_route
  rw [h]

/-- First-match behavior of the scan against `List.find?` over the same
predicate, under the well-formedness `get_route` dereferences anyway. -/
theorem routeScan_find_spec (rid : String) : ∀ kvs, routeTableWF kvs = true →
    ((∀ url route, kvs.find? (fun e => routeIdMatches rid e.2) = some (url, route) →
        ∃ rkvs kvs2, route = Json.obj rkvs ∧
          routeScan rid kvs = .ok (Json.obj (objInsert rkvs "url" (Json.str url)), kvs2))
     ∧ (kvs.find? (fun e => routeIdMatches rid e.2) = none →
        routeScan rid kvs = .error .routeNotFound))
  | [], _ => by
    constructor
    · intro url route heq; simp at heq
    · intro _; rfl
  | (url0, route0) :: rest, hwf => by
    rw [routeTableWF, Bool.and_eq_true] at hwf
    obtain ⟨hhead, hrest⟩ := hwf
    cases route0 with
    | obj kvs0 =>
      rw [routeHasId, Option.isSome_iff_exists] at hhead
      obtain ⟨idv, hlk⟩ := hhead
      by_cases hid : idv = Json.str rid
      · have hp : routeIdMatches rid (Json.obj kvs0) = true := by
          simp [routeIdMatches, hlk, hid]
        constructor
        · intro url route heq
          simp only [List.find?, hp] at heq
          obtain ⟨hu, hr⟩ : url0 = url ∧ Json.obj kvs0 = route := by simpa using heq
          refine ⟨kvs0, (url0, Json.obj (objInsert kvs0 "url" (Json.str url0))) :: rest,
            hr.symm, ?_⟩
          rw [routeScan, hlk]
          simp [hid, hu]
        · intro heq
          simp only [List.find?, hp] at heq
          exact absurd heq (by simp)
      · have hp : routeIdMatches rid (Json.obj kvs0) = false := by
          simp [routeIdMatches, hlk, hid]
        obtain ⟨ih1, ih2⟩ := routeScan_find_spec rid rest hrest
        constructor
        · intro url route heq
          simp only [List.find?, hp] at heq
          obtain ⟨rkvs, kvs2, hro, hsc⟩ := ih1 url route heq
          refine ⟨rkvs, (url0, Json.obj kvs0) :: kvs2, hro, ?_⟩
          rw [routeScan, hlk]
          simp [hid, hsc]
        · intro heq
          simp only [List.find?, hp] at heq
          rw [routeScan, hlk]
          simp [hid, ih2 heq]
    | null => exact absurd hhead (by simp [routeHasId])
    | bool b => exact absurd hhead (by simp [routeHasId])
    | num n => exact absurd hhead (by simp [routeHasId])
    | str s => exact absurd hhead (by simp [routeHasId])
    | arr xs => exact absurd hhead (by simp [routeHasId])

/-- C7.  On a valid platform at runtime, `get_route` scans the decoded
route table in insertion order: if some entry's route carries the wanted
id, the first such entry wins — duplicates are not rejected — and the
returned route is that entry, with its `url` member set to its table key;
if no entry matches, the route-not-found `ValueError` is raised. -/
theorem get_route_first_match_spec (c : Config) (rid : String) (kvs : List (String × Json))
    (hv : c.is_valid_platform = true) (hb : c.in_build = false)
    (hr : c.routesDef = some (Json.obj kvs)) (hwf : routeTableWF kvs = true) :
    (∀ url route, kvs.find? (fun e => routeIdMatches rid e.2) = some (url, route) →
       ∃ rkvs c2, route = Json.obj rkvs ∧
         c.get_route rid = .ok (Json.obj (objInsert rkvs "url" (Json.str url)), c2))
    ∧ (kvs.find? (fun e => routeIdMatches rid e.2) = none →
       c.get_route rid = .error .routeNotFound) := by
  have hroutes : c.routes = .ok (some (Json.obj kvs)) := by
    simp [Config.routes, hv, hb, hr]
  have hg := get_route_eq_scan c rid kvs hroutes
  obtain ⟨s1, s2⟩ := routeScan_find_spec rid kvs hwf
  constructor
  · intro url route heq
    obtain ⟨rkvs, kvs2, hro, hsc⟩ := s1 url route heq
    exact ⟨rkvs, { c with routesDef := some (.obj kvs2) }, hro, by rw [hg, hsc]⟩
  · intro heq
    rw [hg, s2 heq]

/-- C7 (witness).  Two routes share the id `a`; the first one (under key
`http://x`) wins and comes back with `url` set to that key; and the miss
case fires on an id no route carries. -/
theorem get_route_first_match_spec_witness :
    (∃ rkvs c2, Json.obj [("id", Json.str "a"), ("kind", Json.str "first")] = Json.obj rkvs ∧
       Config.get_route cfgDupRoutes "a"
         = .ok (Json.obj (objInsert rkvs "url" (Json.str "http://x")), c2))
    ∧ Config.get_route cfgDupRoutes "missing" = .error .routeNotFound :=
  ⟨(get_route_first_match_spec cfgDupRoutes "a" dupRoutesTable rfl rfl rfl rfl).1
      "http://x" (Json.obj [("id", Json.str "a"), ("kind", Json.str "first")]) rfl,
   (get_route_first_match_spec cfgDupRoutes "missing" dupRoutesTable rfl rfl rfl rfl).2 rfl⟩

theorem charSextet_b64Char : ∀ k, k < 64 → charSextet (b64Char k) = some k := by decide

theorem b64Char_ne_pad : ∀ k, k < 64 → ¬(b64Char k = '=') := by decide

theorem b64Go_encode : ∀ bs : List Nat, (∀ b ∈ bs, b < 256) → b64Go (b64Encode bs) [] = .ok bs
  | [], _ => rfl
  | [b0], h => by
    have hb0 : b0 < 256 := h b0 (by simp)
    have e1 := charSextet_b64Char (b0 / 4) (by omega)
    have n1 := b64Char_ne_pad (b0 / 4) (by omega)
    have e2 := charSextet_b64Char (b0 % 4 * 16) (by omega)
    have n2 := b64Char_ne_pad (b0 % 4 * 16) (by omega)
    have hv : b0 / 4 * 4 + b0 % 4 * 16 / 16 = b0 := by omega
    simp [b64Encode, b64Go, e1, n1, e2, n2, b64FindValid]
    omega
  | [b0, b1], h => by
    have hb0 : b0 < 256 := h b0 (by simp)
    have hb1 : b1 < 256 := h b1 (by simp)
    have e1 := charSextet_b64Char (b0 / 4) (by omega)
    have n1 := b64Char_ne_pad (b0 / 4) (by omega)
    have e2 := charSextet_b64Char (b0 % 4 * 16 + b1 / 16) (by omega)
    have n2 := b64Char_ne_pad (b0 % 4 * 16 + b1 / 16) (by omega)
    have e3 := charSextet_b64Char (b1 % 16 * 4) (by omega)
    have n3 := b64Char_ne_pad (b1 % 16 * 4) (by omega)
    have hv1 : b0 / 4 * 4 + (b0 % 4 * 16 + b1 / 16) / 16 = b0 := by omega
    have hv2 : (b0 % 4 * 16 + b1 / 16) % 16 * 16 + b1 % 16 * 4 / 4 = b1 := by omega
    simp [b64Encode, b64Go, e1, n1, e2, n2, e3, n3]
    omega
  | b0 :: b1 :: b2 :: rest, h => by
    have hb0 : b0 < 256 := h b0 (by simp)
    have hb1 : b1 < 256 := h b1 (by simp)
    have hb2 : b2 < 256 := h b2 (by simp)
    have ih := b64Go_encode rest (fun b hb => h b (by simp [hb]))
    have e1 := charSextet_b64Char (b0 / 4) (by omega)
    have n1 := b64Char_ne_pad (b0 / 4) (by omega)
    have e2 := charSextet_b64Char (b0 % 4 * 16 + b1 / 16) (by omega)
    have n2 := b64Char_ne_pad (b0 % 4 * 16 + b1 / 16) (by omega)
    have e3 := charSextet_b64Char (b1 % 16 * 4 + b2 / 64) (by omega)
    have n3 := b64Char_ne_pad (b1 % 16 * 4 + b2 / 64) (by omega)
    have e4 := charSextet_b64Char (b2 % 64) (by omega)
    have n4 := b64Char_ne_pad (b2 % 64) (by omega)
    have hv1 : b0 / 4 * 4 + (b0 % 4 * 16 + b1 / 16) / 16 = b0 := by omega
    have hv2 : (b0 % 4 * 16 + b1 / 16) % 16 * 16 + (b1 % 16 * 4 + b2 / 64) / 4 = b1 := by omega
    have hv3 : (b1 % 16 * 4 + b2 / 64) % 4 * 64 + b2 % 64 = b2 := by omega
    simp [b64Encode, b64Go, e1, n1, e2, n2, e3, n3, e4, n4, ih]
    omega

theorem b64DecodeBytes_encode (bs : List Nat) (h : ∀ b ∈ bs, b < 256) :
    b64DecodeBytes (b64Encode bs) = .ok bs :=
  b64Go_encode bs h

theorem charOfNatAux_toNat : ∀ (c : Char) (h : Nat.isValidChar c.toNat),
    Char.ofNatAux c.toNat h = c := by
  intro c h
  apply Char.eq_of_val_eq
  show UInt32.mk (BitVec.ofNatLt c.toNat _) = c.val
  cases c with
  | mk val valid =>
    cases val with
    | mk bv =>
      cases bv with
      | ofFin f =>
        simp [Char.toNat, UInt32.toNat, BitVec.ofNatLt]

theorem charOfNatAux_eq (c : Char) (x : Nat) (h : Nat.isValidChar x) (hx : x = c.toNat) :
    Char.ofNatAux x h = c := by
  simp only [hx]
  exact charOfNatAux_toNat c (hx ▸ h)

theorem charOfNat_eq (c : Char) (n : Nat) (h : Nat.isValidChar n) (hx : n = c.toNat) :
    Char.ofNat n = c := by
  unfold Char.ofNat
  rw [dif_pos h]
  exact charOfNatAux_eq c n h hx


set_option maxRecDepth 10000 in
theorem utf8DecGo_encodeChar (c : Char) (rest : List Nat) (fuel : Nat) :
    utf8DecGo (fuel + 1) (utf8EncodeChar c ++ rest) =
      (match utf8DecGo fuel rest with
       | some cs => some (c :: cs)
       | none => none) := by
  have hval : Nat.isValidChar c.toNat := c.valid
  by_cases h1 : c.toNat < 128
  · have henc : utf8EncodeChar c = [c.toNat] := by simp [utf8EncodeChar, h1]
    have hrw : Char.ofNat c.toNat = c := charOfNat_eq c c.toNat hval rfl
    rw [henc]
    simp only [List.cons_append, List.nil_append, utf8DecGo]
    simp [utf8Step, h1, hrw]
  · by_cases h2 : c.toNat < 2048
    · have henc : utf8EncodeChar c = [192 + c.toNat / 64, 128 + c.toNat % 64] := by
        simp [utf8EncodeChar, h1, h2]
      have ha : ¬(192 + c.toNat / 64 < 128) := by omega
      have hb : ¬(192 + c.toNat / 64 < 194) := by omega
      have hcc : 192 + c.toNat / 64 < 224 := by omega
      have hcont : utf8Cont (128 + c.toNat % 64) = true := by
        simp only [utf8Cont, decide_eq_true_eq]
        omega
      have hvv : (192 + c.toNat / 64 - 192) * 64 + (128 + c.toNat % 64 - 128) = c.toNat := by
        omega
      rw [henc]
      simp only [List.cons_append, List.nil_append, utf8DecGo]
      simp [utf8Step, ha, hb, hcc, hcont]
      cases hgo : utf8DecGo fuel rest with
      | none => simp
      | some cs =>
        simp
        apply charOfNat_eq c
        · rcases hval with h | h
          · exact Or.inl (by omega)
          · exact Or.inr ⟨by omega, by omega⟩
        · omega
    · by_cases h3 : c.toNat < 65536
      · have henc : utf8EncodeChar c =
            [224 + c.toNat / 4096, 128 + c.toNat / 64 % 64, 128 + c.toNat % 64] := by
          simp [utf8EncodeChar, h1, h2, h3]
        have ha : ¬(224 + c.toNat / 4096 < 128) := by omega
        have hb : ¬(224 + c.toNat / 4096 < 194) := by omega
        have hcc : ¬(224 + c.toNat / 4096 < 224) := by omega
        have hd : 224 + c.toNat / 4096 < 240 := by omega
        have hcont1 : utf8Cont (128 + c.toNat / 64 % 64) = true := by
          simp only [utf8Cont, decide_eq_true_eq]
          omega
        have hcont2 : utf8Cont (128 + c.toNat % 64) = true := by
          simp only [utf8Cont, decide_eq_true_eq]
          omega
        have hvv : c.toNat / 4096 * 4096 + c.toNat / 64 % 64 * 64 + c.toNat % 64
            = c.toNat := by omega
        have hc1 : 2048 ≤ c.toNat / 4096 * 4096 + c.toNat / 64 % 64 * 64 + c.toNat % 64 := by
          omega
        have hc2 : validScalar (c.toNat / 4096 * 4096 + c.toNat / 64 % 64 * 64 + c.toNat % 64)
            = true := by
          rw [hvv]
          simp only [validScalar, Bool.or_eq_true, Bool.and_eq_true, decide_eq_true_eq]
          rcases hval with h | h
          · omega
          · omega
        rw [henc]
        simp only [List.cons_append, List.nil_append, utf8DecGo]
        simp [utf8Step, ha, hb, hcc, hd, hcont1, hcont2, hc1, hc2]
        cases hgo : utf8DecGo fuel rest with
        | none => simp
        | some cs =>
          simp
          apply charOfNat_eq c
          · rcases hval with h | h
            · exact Or.inl (by omega)
            · exact Or.inr ⟨by omega, by omega⟩
          · omega
      · have h4 : c.toNat < 1114112 := by
          rcases hval with h | h
          · omega
          · omega
        have henc : utf8EncodeChar c = [240 + c.toNat / 262144, 128 + c.toNat / 4096 % 64,
            128 + c.toNat / 64 % 64, 128 + c.toNat % 64] := by
          simp [utf8EncodeChar, h1, h2, h3]
        have ha : ¬(240 + c.toNat / 262144 < 128) := by omega
        have hb : ¬(240 + c.toNat / 262144 < 194) := by omega
        have hcc : ¬(240 + c.toNat / 262144 < 224) := by omega
        have hd : ¬(240 + c.toNat / 262144 < 240) := by omega
        have he : 240 + c.toNat / 262144 < 245 := by omega
        have hcont1 : utf8Cont (128 + c.toNat / 4096 % 64) = true := by
          simp only [utf8Cont, decide_eq_true_eq]
          omega
        have hcont2 : utf8Cont (128 + c.toNat / 64 % 64) = true := by
          simp only [utf8Cont, decide_eq_true_eq]
          omega
        have hcont3 : utf8Cont (128 + c.toNat % 64) = true := by
          simp only [utf8Cont, decide_eq_true_eq]
          omega
        have hvv : c.toNat / 262144 * 262144 + c.toNat / 4096 % 64 * 4096
            + c.toNat / 64 % 64 * 64 + c.toNat % 64 = c.toNat := by
          omega
        have hc1 : 65536 ≤ c.toNat / 262144 * 262144 + c.toNat / 4096 % 64 * 4096
            + c.toNat / 64 % 64 * 64 + c.toNat % 64 := by omega
        have hc2 : validScalar (c.toNat / 262144 * 262144 + c.toNat / 4096 % 64 * 4096
            + c.toNat / 64 % 64 * 64 + c.toNat % 64) = true := by
          rw [hvv]
          simp only [validScalar, Bool.or_eq_true, Bool.and_eq_true, decide_eq_true_eq]
          rcases hval with h | h
          · omega
          · omega
        rw [henc]
        simp only [List.cons_append, List.nil_append, utf8DecGo]
        simp [utf8Step, ha, hb, hcc, hd, he, hcont1, hcont2, hcont3, hc1, hc2]
        cases hgo : utf8DecGo fuel rest with
        | none => simp
        | some cs =>
          simp
          apply charOfNat_eq c
          · rcases hval with h | h
            · exact Or.inl (by omega)
            · exact Or.inr ⟨by omega, by omega⟩
          · omega

theorem utf8EncodeChar_ne_nil (c : Char) : utf8EncodeChar c ≠ [] := by
  unfold utf8EncodeChar
  dsimp only
  split_ifs <;> simp

theorem length_le_flatten_encode : ∀ cs : List Char,
    cs.length ≤ ((cs.map utf8EncodeChar).flatten).length
  | [] => by simp
  | c :: cs => by
    simp only [List.map_cons, List.flatten_cons, List.length_append, List.length_cons]
    have h1 : 1 ≤ (utf8EncodeChar c).length := by
      cases he : utf8EncodeChar c with
      | nil => exact absurd he (utf8EncodeChar_ne_nil c)
      | cons b bs => simp
    have h2 := length_le_flatten_encode cs
    omega

theorem utf8DecGo_encList : ∀ (cs : List Char) (fuel : Nat), cs.length ≤ fuel →
    utf8DecGo fuel ((cs.map utf8EncodeChar).flatten) = some cs
  | [], fuel, _ => by cases fuel <;> rfl
  | c :: cs, fuel, h => by
    cases fuel with
    | zero => simp at h
    | succ f =>
      have ih := utf8DecGo_encList cs f (by simp at h; omega)
      simp only [List.map_cons, List.flatten_cons]
      rw [utf8DecGo_encodeChar c _ f, ih]

theorem utf8Dec_enc (s : String) : utf8Dec (utf8Enc s) = some s.data := by
  unfold utf8Dec utf8Enc
  exact utf8DecGo_encList s.data _ (by have := length_le_flatten_encode s.data; omega)

theorem utf8EncodeChar_lt_256 (c : Char) : ∀ b ∈ utf8EncodeChar c, b < 256 := by
  have hval : Nat.isValidChar c.toNat := c.valid
  have h4 : c.toNat < 1114112 := by
    rcases hval with h | h
    · omega
    · omega
  unfold utf8EncodeChar
  dsimp only
  split_ifs with h1 h2 h3 <;> intro b hb <;> simp at hb <;> omega

theorem utf8Enc_lt_256 (s : String) : ∀ b ∈ utf8Enc s, b < 256 := by
  intro b hb
  unfold utf8Enc at hb
  rw [List.mem_flatten] at hb
  obtain ⟨l, hl, hbl⟩ := hb
  rw [List.mem_map] at hl
  obtain ⟨c, _, rfl⟩ := hl
  exact utf8EncodeChar_lt_256 c b hbl

theorem hexVal_hexDigitChar : ∀ k, k < 16 → hexVal (hexDigitChar k) = some k := by decide

theorem strU_encBmp (c : Char) (tail : List Char) (hbmp : c.toNat < 65536) :
    strU (hex4 c.toNat ++ tail) = some (some c, tail) := by
  have hval : Nat.isValidChar c.toNat := c.valid
  have e1 := hexVal_hexDigitChar (c.toNat / 4096 % 16) (by omega)
  have e2 := hexVal_hexDigitChar (c.toNat / 256 % 16) (by omega)
  have e3 := hexVal_hexDigitChar (c.toNat / 16 % 16) (by omega)
  have e4 := hexVal_hexDigitChar (c.toNat % 16) (by omega)
  have hu : ((c.toNat / 4096 % 16 * 16 + c.toNat / 256 % 16) * 16
      + c.toNat / 16 % 16) * 16 + c.toNat % 16 = c.toNat := by omega
  simp only [hex4, List.cons_append, List.nil_append, strU]
  simp only [e1, e2, e3, e4]
  simp only [hu]
  rw [if_pos (hval.imp (fun h => h) (fun h => h.1))]
  rw [charOfNat_eq c c.toNat hval rfl]

theorem strPair_core (u : Nat) (a1 a2 a3 a4 : Char) (w : Nat) (tail : List Char)
    (h1 : hexVal a1 = some (w / 4096 % 16)) (h2 : hexVal a2 = some (w / 256 % 16))
    (h3 : hexVal a3 = some (w / 16 % 16)) (h4 : hexVal a4 = some (w % 16))
    (hw : w < 65536) (hrange : 56320 ≤ w ∧ w < 57344) :
    strPair u ('\\' :: 'u' :: a1 :: a2 :: a3 :: a4 :: tail) =
      some (some (Char.ofNat (65536 + (u - 55296) * 1024 + (w - 56320))), tail) := by
  have hcomb : ((w / 4096 % 16 * 16 + w / 256 % 16) * 16 + w / 16 % 16) * 16 + w % 16 = w := by
    omega
  simp only [strPair]
  rw [if_pos ⟨trivial, trivial⟩]
  simp only [h1, h2, h3, h4]
  simp only [hcomb]
  rw [if_pos hrange]

theorem strPair_enc (c : Char) (tail : List Char) (hbmp : ¬c.toNat < 65536) :
    strPair (55296 + (c.toNat - 65536) / 1024)
      ('\\' :: 'u' :: hex4 (56320 + (c.toNat - 65536) % 1024) ++ tail)
      = some (some c, tail) := by
  have hval : Nat.isValidChar c.toNat := c.valid
  have h4 : c.toNat < 1114112 := by
    rcases hval with h | h <;> omega
  have f1 := hexVal_hexDigitChar ((56320 + (c.toNat - 65536) % 1024) / 4096 % 16) (by omega)
  have f2 := hexVal_hexDigitChar ((56320 + (c.toNat - 65536) % 1024) / 256 % 16) (by omega)
  have f3 := hexVal_hexDigitChar ((56320 + (c.toNat - 65536) % 1024) / 16 % 16) (by omega)
  have f4 := hexVal_hexDigitChar ((56320 + (c.toNat - 65536) % 1024) % 16) (by omega)
  have hstep := strPair_core (55296 + (c.toNat - 65536) / 1024)
    (hexDigitChar ((56320 + (c.toNat - 65536) % 1024) / 4096 % 16))
    (hexDigitChar ((56320 + (c.toNat - 65536) % 1024) / 256 % 16))
    (hexDigitChar ((56320 + (c.toNat - 65536) % 1024) / 16 % 16))
    (hexDigitChar ((56320 + (c.toNat - 65536) % 1024) % 16))
    (56320 + (c.toNat - 65536) % 1024) tail f1 f2 f3 f4 (by omega) ⟨by omega, by omega⟩
  simp only [hex4, List.cons_append, List.nil_append]
  rw [hstep]
  rw [charOfNat_eq c _ (Or.inr ⟨by omega, by omega⟩) (by omega)]

theorem strU_core (a1 a2 a3 a4 : Char) (u : Nat) (rest : List Char)
    (h1 : hexVal a1 = some (u / 4096 % 16)) (h2 : hexVal a2 = some (u / 256 % 16))
    (h3 : hexVal a3 = some (u / 16 % 16)) (h4 : hexVal a4 = some (u % 16))
    (hu : u < 65536) :
    strU (a1 :: a2 :: a3 :: a4 :: rest) =
      (if u < 55296 ∨ 57343 < u then some (some (Char.ofNat u), rest)
       else if u < 56320 then strPair u rest else none) := by
  have hcomb : ((u / 4096 % 16 * 16 + u / 256 % 16) * 16 + u / 16 % 16) * 16 + u % 16 = u := by
    omega
  simp only [strU]
  simp only [h1, h2, h3, h4]
  simp only [hcomb]

theorem strU_encAstral (c : Char) (tail : List Char) (hbmp : ¬c.toNat < 65536) :
    strU (hex4 (55296 + (c.toNat - 65536) / 1024)
      ++ '\\' :: 'u' :: hex4 (56320 + (c.toNat - 65536) % 1024) ++ tail)
      = some (some c, tail) := by
  have hval : Nat.isValidChar c.toNat := c.valid
  have h4 : c.toNat < 1114112 := by
    rcases hval with h | h <;> omega
  have e1 := hexVal_hexDigitChar ((55296 + (c.toNat - 65536) / 1024) / 4096 % 16) (by omega)
  have e2 := hexVal_hexDigitChar ((55296 + (c.toNat - 65536) / 1024) / 256 % 16) (by omega)
  have e3 := hexVal_hexDigitChar ((55296 + (c.toNat - 65536) / 1024) / 16 % 16) (by omega)
  have e4 := hexVal_hexDigitChar ((55296 + (c.toNat - 65536) / 1024) % 16) (by omega)
  have hc1 : ¬(55296 + (c.toNat - 65536) / 1024 < 55296
      ∨ 57343 < 55296 + (c.toNat - 65536) / 1024) := by omega
  have hc2 : 55296 + (c.toNat - 65536) / 1024 < 56320 := by omega
  have hpair := strPair_enc c tail hbmp
  simp only [hex4, List.cons_append, List.nil_append] at hpair ⊢
  rw [strU_core _ _ _ _ (55296 + (c.toNat - 65536) / 1024) _ e1 e2 e3 e4 (by omega)]
  rw [if_neg hc1]
  rw [if_pos hc2]
  exact hpair

theorem parseStrGo_cons (fuel : Nat) (x : Char) (xs : List Char) :
    parseStrGo (fuel + 1) (x :: xs) =
      (match strStep x xs with
       | some (none, r) => some ([], r)
       | some (some ch, r) =>
         (match parseStrGo fuel r with
          | some (cs, r2) => some (ch :: cs, r2)
          | none => none)
       | none => none) := rfl

theorem strStep_quot (xs : List Char) : strStep '"' xs = some (none, xs) := rfl

theorem strStep_bslash (xs : List Char) : strStep '\\' xs = strEsc xs := rfl

theorem strStep_lit (c : Char) (xs : List Char) (h1 : ¬c = '"') (h2 : ¬c = '\\')
    (h3 : ¬c.toNat < 32) : strStep c xs = some (some c, xs) := by
  simp only [strStep]
  rw [if_neg h1, if_neg h2, if_neg h3]

theorem strEsc_quot (ys : List Char) : strEsc ('"' :: ys) = some (some '"', ys) := rfl

theorem strEsc_bslash (ys : List Char) : strEsc ('\\' :: ys) = some (some '\\', ys) := rfl

theorem strEsc_b (ys : List Char) : strEsc ('b' :: ys) = some (some (Char.ofNat 8), ys) := rfl

theorem strEsc_f (ys : List Char) : strEsc ('f' :: ys) = some (some (Char.ofNat 12), ys) := rfl

theorem strEsc_n (ys : List Char) : strEsc ('n' :: ys) = some (some (Char.ofNat 10), ys) := rfl

theorem strEsc_r (ys : List Char) : strEsc ('r' :: ys) = some (some (Char.ofNat 13), ys) := rfl

theorem strEsc_t (ys : List Char) : strEsc ('t' :: ys) = some (some (Char.ofNat 9), ys) := rfl

theorem strEsc_u (ys : List Char) : strEsc ('u' :: ys) = strU ys := rfl

theorem parseStrGo_escChar (c : Char) (rest : List Char) (fuel : Nat) :
    parseStrGo (fuel + 1) (escChar c ++ rest) =
      (match parseStrGo fuel rest with
       | some (cs, r2) => some (c :: cs, r2)
       | none => none) := by
  have hval : Nat.isValidChar c.toNat := c.valid
  by_cases h1 : c = '"'
  · subst h1
    rw [show escChar '"' ++ rest = '\\' :: '"' :: rest from rfl]
    rw [parseStrGo_cons, strStep_bslash, strEsc_quot]
  · by_cases h2 : c = '\\'
    · subst h2
      rw [show escChar '\\' ++ rest = '\\' :: '\\' :: rest from rfl]
      rw [parseStrGo_cons, strStep_bslash, strEsc_bslash]
    · by_cases hv8 : c.toNat = 8
      · have hesc : escChar c = ['\\', 'b'] := by
          unfold escChar
          dsimp only
          rw [if_neg h1, if_neg h2, if_pos hv8]
        rw [hesc]
        rw [show ('\\' :: 'b' :: []) ++ rest = '\\' :: 'b' :: rest from rfl]
        rw [parseStrGo_cons, strStep_bslash, strEsc_b]
        rw [charOfNat_eq c 8 (Or.inl (by omega)) hv8.symm]
      · by_cases hv12 : c.toNat = 12
        · have hesc : escChar c = ['\\', 'f'] := by
            unfold escChar
            dsimp only
            rw [if_neg h1, if_neg h2, if_neg hv8, if_pos hv12]
          rw [hesc]
          rw [show ('\\' :: 'f' :: []) ++ rest = '\\' :: 'f' :: rest from rfl]
          rw [parseStrGo_cons, strStep_bslash, strEsc_f]
          rw [charOfNat_eq c 12 (Or.inl (by omega)) hv12.symm]
        · by_cases hv10 : c.toNat = 10
          · have hesc : escChar c = ['\\', 'n'] := by
              unfold escChar
              dsimp only
              rw [if_neg h1, if_neg h2, if_neg hv8, if_neg hv12, if_pos hv10]
            rw [hesc]
            rw [show ('\\' :: 'n' :: []) ++ rest = '\\' :: 'n' :: rest from rfl]
            rw [parseStrGo_cons, strStep_bslash, strEsc_n]
            rw [charOfNat_eq c 10 (Or.inl (by omega)) hv10.symm]
          · by_cases hv13 : c.toNat = 13
            · have hesc : escChar c = ['\\', 'r'] := by
                unfold escChar
                dsimp only
                rw [if_neg h1, if_neg h2, if_neg hv8, if_neg hv12, if_neg hv10, if_pos hv13]
              rw [hesc]
              rw [show ('\\' :: 'r' :: []) ++ rest = '\\' :: 'r' :: rest from rfl]
              rw [parseStrGo_cons, strStep_bslash, strEsc_r]
              rw [charOfNat_eq c 13 (Or.inl (by omega)) hv13.symm]
            · by_cases hv9 : c.toNat = 9
              · have hesc : escChar c = ['\\', 't'] := by
                  unfold escChar
                  dsimp only
                  rw [if_neg h1, if_neg h2, if_neg hv8, if_neg hv12, if_neg hv10, if_neg hv13,
                    if_pos hv9]
                rw [hesc]
                rw [show ('\\' :: 't' :: []) ++ rest = '\\' :: 't' :: rest from rfl]
                rw [parseStrGo_cons, strStep_bslash, strEsc_t]
                rw [charOfNat_eq c 9 (Or.inl (by omega)) hv9.symm]
              · by_cases hrange : c.toNat < 32 ∨ 127 ≤ c.toNat
                · by_cases hbmp : c.toNat < 65536
                  · have hesc : escChar c = '\\' :: 'u' :: hex4 c.toNat := by
                      unfold escChar
                      dsimp only
                      rw [if_neg h1, if_neg h2, if_neg hv8, if_neg hv12, if_neg hv10, if_neg hv13,
                        if_neg hv9, if_pos hrange, if_pos hbmp]
                    rw [hesc]
                    rw [show ('\\' :: 'u' :: hex4 c.toNat) ++ rest
                        = '\\' :: 'u' :: (hex4 c.toNat ++ rest) from rfl]
                    rw [parseStrGo_cons, strStep_bslash, strEsc_u]
                    rw [strU_encBmp c rest hbmp]
                  · have hesc : escChar c
                        = ('\\' :: 'u' :: hex4 (55296 + (c.toNat - 65536) / 1024))
                        ++ ('\\' :: 'u' :: hex4 (56320 + (c.toNat - 65536) % 1024)) := by
                      unfold escChar
                      dsimp only
                      rw [if_neg h1, if_neg h2, if_neg hv8, if_neg hv12, if_neg hv10, if_neg hv13,
                        if_neg hv9, if_pos hrange, if_neg hbmp]
                    rw [hesc]
                    rw [show (('\\' :: 'u' :: hex4 (55296 + (c.toNat - 65536) / 1024))
                          ++ ('\\' :: 'u' :: hex4 (56320 + (c.toNat - 65536) % 1024))) ++ rest
                        = '\\' :: 'u' :: (hex4 (55296 + (c.toNat - 65536) / 1024)
                          ++ '\\' :: 'u' :: hex4 (56320 + (c.toNat - 65536) % 1024) ++ rest) from by
                      simp]
                    rw [parseStrGo_cons, strStep_bslash, strEsc_u]
                    rw [strU_encAstral c rest hbmp]
                · have hesc : escChar c = [c] := by
                    unfold escChar
                    dsimp only
                    rw [if_neg h1, if_neg h2, if_neg hv8, if_neg hv12, if_neg hv10, if_neg hv13,
                      if_neg hv9, if_neg hrange]
                  rw [hesc]
                  rw [show (c :: []) ++ rest = c :: rest from rfl]
                  rw [parseStrGo_cons, strStep_lit c rest h1 h2 (by omega)]

theorem escChar_length_pos (c : Char) : 1 ≤ (escChar c).length := by
  unfold escChar
  dsimp only
  split_ifs <;> simp

theorem length_le_flatten_escChar : ∀ cs : List Char,
    cs.length ≤ ((cs.map escChar).flatten).length
  | [] => by simp
  | c :: cs => by
    simp only [List.map_cons, List.flatten_cons, List.length_append, List.length_cons]
    have h1 := escChar_length_pos c
    have h2 := length_le_flatten_escChar cs
    omega

theorem parseStrGo_flatten : ∀ (cs : List Char) (fuel : Nat) (rest : List Char),
    cs.length < fuel →
    parseStrGo fuel ((cs.map escChar).flatten ++ '"' :: rest) = some (cs, rest)
  | [], fuel, rest, h => by
    obtain ⟨f, rfl⟩ : ∃ f, fuel = f + 1 := ⟨fuel - 1, by omega⟩
    simp only [List.map_nil, List.flatten_nil, List.nil_append]
    rw [parseStrGo_cons, strStep_quot]
  | c :: cs, fuel, rest, h => by
    obtain ⟨f, rfl⟩ : ∃ f, fuel = f + 1 := ⟨fuel - 1, by omega⟩
    simp only [List.map_cons, List.flatten_cons, List.append_assoc]
    rw [parseStrGo_escChar]
    rw [parseStrGo_flatten cs f rest (by simp only [List.length_cons] at h; omega)]

theorem parseStrBody_flatten (cs : List Char) (rest : List Char) :
    parseStrBody ((cs.map escChar).flatten ++ '"' :: rest) = some (cs, rest) := by
  unfold parseStrBody
  apply parseStrGo_flatten
  have h1 := length_le_flatten_escChar cs
  simp only [List.length_append, List.length_cons]
  omega

theorem toNat_charOfNat (m : Nat) (h : Nat.isValidChar m) : (Char.ofNat m).toNat = m := by
  unfold Char.ofNat
  rw [dif_pos h]
  rfl

theorem digitChar_toNat (n : Nat) (h : n < 10) : (digitChar n).toNat = 48 + n := by
  unfold digitChar
  exact toNat_charOfNat (48 + n) (Or.inl (by omega))

theorem isDigitChar_digitChar (n : Nat) (h : n < 10) : isDigitChar (digitChar n) = true := by
  simp only [isDigitChar, digitChar_toNat n h, Bool.and_eq_true, decide_eq_true_eq]
  omega

theorem digitVal_digitChar (n : Nat) (h : n < 10) : digitVal (digitChar n) = n := by
  simp only [digitVal, digitChar_toNat n h]
  omega

theorem digitChar_ne_zeroChar (n : Nat) (h : n < 10) (h0 : n ≠ 0) : digitChar n ≠ '0' := by
  intro he
  have : (digitChar n).toNat = 48 := by rw [he]; rfl
  rw [digitChar_toNat n h] at this
  omega

theorem digitChar_ne_minus (n : Nat) (h : n < 10) : digitChar n ≠ '-' := by
  intro he
  have : (digitChar n).toNat = 45 := by rw [he]; rfl
  rw [digitChar_toNat n h] at this
  omega

theorem munchNat_cons_digit (acc : Nat) (c : Char) (rest : List Char)
    (h : isDigitChar c = true) :
    munchNat acc (c :: rest) = munchNat (acc * 10 + digitVal c) rest := by
  simp [munchNat, h]

theorem munchNat_stop (acc : Nat) (rest : List Char)
    (h : ∀ c r2, rest = c :: r2 → isDigitChar c = false) :
    munchNat acc rest = (acc, rest) := by
  cases rest with
  | nil => rfl
  | cons c r2 => simp [munchNat, h c r2 rfl]

theorem munchNat_digits : ∀ (fuel n acc : Nat) (rest : List Char), n < fuel →
    munchNat acc (natDigitsGo fuel n ++ rest) =
      munchNat (acc * 10 ^ (natDigitsGo fuel n).length + n) rest
  | fuel + 1, n, acc, rest, h => by
    by_cases hn : n < 10
    · rw [show natDigitsGo (fuel + 1) n = [digitChar n] from by rw [natDigitsGo, if_pos hn]]
      rw [show [digitChar n] ++ rest = digitChar n :: rest from rfl]
      rw [munchNat_cons_digit acc _ rest (isDigitChar_digitChar n hn)]
      rw [digitVal_digitChar n hn]
      norm_num
    · rw [show natDigitsGo (fuel + 1) n
          = natDigitsGo fuel (n / 10) ++ [digitChar (n % 10)] from by
        rw [natDigitsGo, if_neg hn]]
      rw [List.append_assoc]
      rw [munchNat_digits fuel (n / 10) acc _ (by omega)]
      rw [show [digitChar (n % 10)] ++ rest = digitChar (n % 10) :: rest from rfl]
      rw [munchNat_cons_digit _ _ rest (isDigitChar_digitChar (n % 10) (by omega))]
      rw [digitVal_digitChar (n % 10) (by omega)]
      simp only [List.length_append, List.length_cons, List.length_nil]
      have hp : (10 : Nat) ^ ((natDigitsGo fuel (n / 10)).length + (0 + 1))
          = 10 ^ (natDigitsGo fuel (n / 10)).length * 10 := by
        rw [pow_succ]
      rw [hp]
      congr 1
      have h10 : n % 10 < 10 := by omega
      have hdiv : 10 * (n / 10) + n % 10 = n := by omega
      ring_nf
      omega

theorem natDigitsGo_head : ∀ (fuel n : Nat), n < fuel →
    ∃ d t, natDigitsGo fuel n = digitChar d :: t ∧ d < 10 ∧ (n ≠ 0 → d ≠ 0)
  | fuel + 1, n, h => by
    by_cases hn : n < 10
    · exact ⟨n, [], by rw [natDigitsGo, if_pos hn], hn, fun h0 => h0⟩
    · obtain ⟨d, t, heq, hd, hd0⟩ := natDigitsGo_head fuel (n / 10) (by omega)
      refine ⟨d, t ++ [digitChar (n % 10)], ?_, hd, fun _ => hd0 (by omega)⟩
      rw [natDigitsGo, if_neg hn, heq]
      rfl

theorem parseUIntToken_cons (c : Char) (r : List Char) :
    parseUIntToken (c :: r) =
      (if c = '0' then some (0, r)
       else if isDigitChar c then some (munchNat (digitVal c) r) else none) := rfl

theorem parseIntToken_cons (c : Char) (r : List Char) :
    parseIntToken (c :: r) =
      (if c = '-' then
        (match parseUIntToken r with
         | some (n, r2) => some (-(n : Int), r2)
         | none => none)
       else
        (match parseUIntToken (c :: r) with
         | some (n, r2) => some ((n : Int), r2)
         | none => none)) := rfl

theorem parseUIntToken_natDigits (n : Nat) (rest : List Char)
    (hrest : ∀ c r2, rest = c :: r2 → isDigitChar c = false) :
    parseUIntToken (natDigits n ++ rest) = some (n, rest) := by
  by_cases h0 : n = 0
  · subst h0
    rw [show natDigits 0 ++ rest = '0' :: rest from rfl]
    rw [parseUIntToken_cons, if_pos rfl]
  · obtain ⟨d, t, heq, hd, hd0⟩ := natDigitsGo_head (n + 1) n (by omega)
    have hmunch : munchNat 0 (natDigitsGo (n + 1) n ++ rest) = (n, rest) := by
      rw [munchNat_digits (n + 1) n 0 rest (by omega)]
      rw [munchNat_stop _ rest hrest]
      norm_num
    rw [heq] at hmunch
    rw [List.cons_append] at hmunch
    rw [munchNat_cons_digit 0 _ _ (isDigitChar_digitChar d hd)] at hmunch
    rw [digitVal_digitChar d hd] at hmunch
    norm_num at hmunch
    unfold natDigits
    rw [heq]
    rw [show (digitChar d :: t) ++ rest = digitChar d :: (t ++ rest) from rfl]
    rw [parseUIntToken_cons]
    rw [if_neg (digitChar_ne_zeroChar d hd (hd0 h0))]
    rw [if_pos (isDigitChar_digitChar d hd)]
    rw [digitVal_digitChar d hd]
    rw [hmunch]

theorem parseIntToken_intDigits (i : Int) (rest : List Char)
    (hrest : ∀ c r2, rest = c :: r2 → isDigitChar c = false) :
    parseIntToken (intDigits i ++ rest) = some (i, rest) := by
  by_cases hneg : i < 0
  · rw [show intDigits i = '-' :: natDigits (-i).toNat from by unfold intDigits; rw [if_pos hneg]]
    rw [show ('-' :: natDigits (-i).toNat) ++ rest
        = '-' :: (natDigits (-i).toNat ++ rest) from rfl]
    rw [parseIntToken_cons, if_pos rfl]
    rw [parseUIntToken_natDigits (-i).toNat rest hrest]
    show some (-(((-i).toNat : Nat) : Int), rest) = some (i, rest)
    have : -(((-i).toNat : Nat) : Int) = i := by omega
    rw [this]
  · rw [show intDigits i = natDigits i.toNat from by unfold intDigits; rw [if_neg hneg]]
    obtain ⟨d, t, heq, hd, _⟩ := natDigitsGo_head (i.toNat + 1) i.toNat (by omega)
    have huint := parseUIntToken_natDigits i.toNat rest hrest
    unfold natDigits at huint ⊢
    rw [heq] at huint ⊢
    rw [show (digitChar d :: t) ++ rest = digitChar d :: (t ++ rest) from rfl] at huint ⊢
    rw [parseIntToken_cons]
    rw [if_neg (digitChar_ne_minus d hd)]
    rw [huint]
    show some (((i.toNat : Nat) : Int), rest) = some (i, rest)
    have : ((i.toNat : Nat) : Int) = i := by omega
    rw [this]

theorem numSafe_not_digit (rest : List Char) (h : numSafe rest = true) :
    ∀ c r2, rest = c :: r2 → isDigitChar c = false := by
  intro c r2 he
  subst he
  simp only [numSafe, Bool.and_eq_true, Bool.not_eq_eq_eq_not, Bool.not_true] at h
  exact h.1.1.1

theorem numSafe_floatStart (rest : List Char) (h : numSafe rest = true) :
    floatStart rest = false := by
  cases rest with
  | nil => rfl
  | cons c r2 =>
    simp only [numSafe, Bool.and_eq_true, Bool.not_eq_eq_eq_not, Bool.not_true,
      decide_eq_false_iff_not] at h
    simp only [floatStart, Bool.or_eq_false_iff, decide_eq_false_iff_not]
    exact ⟨⟨h.1.1.2, h.1.2⟩, h.2⟩

theorem parseNumToken_intDigits (i : Int) (rest : List Char) (hsafe : numSafe rest = true) :
    parseNumToken (intDigits i ++ rest) = some (.num i, rest) := by
  unfold parseNumToken
  rw [parseIntToken_intDigits i rest (numSafe_not_digit rest hsafe)]
  show (if floatStart rest = true then none else some (Json.num i, rest)) = some (Json.num i, rest)
  rw [numSafe_floatStart rest hsafe]
  rfl

theorem skipWs_cons_nonws (c : Char) (l : List Char) (h : isWsChar c = false) :
    skipWs (c :: l) = c :: l := by
  simp [skipWs, h]

theorem skipWs_cons_ws (c : Char) (l : List Char) (h : isWsChar c = true) :
    skipWs (c :: l) = skipWs l := by
  simp [skipWs, h]

theorem char_ne_of_toNat (c d : Char) (h : c.toNat ≠ d.toNat) : c ≠ d :=
  fun he => h (he ▸ rfl)

theorem isDigitChar_bounds (c : Char) (h : isDigitChar c = true) :
    48 ≤ c.toNat ∧ c.toNat ≤ 57 := by
  simpa [isDigitChar] using h

theorem isWsChar_eq_false_of_toNat (c : Char) (h : 33 ≤ c.toNat) : isWsChar c = false := by
  simp only [isWsChar, Bool.or_eq_false_iff, decide_eq_false_iff_not]
  refine ⟨⟨⟨?_, ?_⟩, ?_⟩, ?_⟩ <;> (intro he; subst he; exact absurd h (by decide))

theorem intDigits_head (i : Int) :
    ∃ c t, intDigits i = c :: t ∧ (c = '-' ∨ isDigitChar c = true) := by
  by_cases hneg : i < 0
  · refine ⟨'-', natDigits (-i).toNat, ?_, Or.inl rfl⟩
    unfold intDigits
    rw [if_pos hneg]
  · obtain ⟨d, t, heq, hd, _⟩ := natDigitsGo_head (i.toNat + 1) i.toNat (by omega)
    refine ⟨digitChar d, t, ?_, Or.inr (isDigitChar_digitChar d hd)⟩
    unfold intDigits
    rw [if_neg hneg]
    exact heq

theorem dumps_head (v : Json) :
    ∃ c t, Json.dumps v = c :: t ∧ isWsChar c = false ∧ c ≠ ']' := by
  cases v with
  | null => exact ⟨'n', _, rfl, rfl, by decide⟩
  | bool b =>
    cases b with
    | true => exact ⟨'t', _, rfl, rfl, by decide⟩
    | false => exact ⟨'f', _, rfl, rfl, by decide⟩
  | num i =>
    obtain ⟨c, t, heq, hdisp⟩ := intDigits_head i
    refine ⟨c, t, heq, ?_, ?_⟩
    · rcases hdisp with h | h
      · subst h; rfl
      · exact isWsChar_eq_false_of_toNat c (by have := isDigitChar_bounds c h; omega)
    · rcases hdisp with h | h
      · subst h; decide
      · refine char_ne_of_toNat c ']' ?_
        have h1 := isDigitChar_bounds c h
        have h2 : (']' : Char).toNat = 93 := rfl
        omega
  | str s => exact ⟨'"', _, rfl, rfl, by decide⟩
  | arr xs =>
    cases xs with
    | nil => exact ⟨'[', _, rfl, rfl, by decide⟩
    | cons x rest => exact ⟨'[', _, rfl, rfl, by decide⟩
  | obj kvs =>
    cases kvs with
    | nil => exact ⟨'\x7b', _, rfl, rfl, by decide⟩
    | cons m rest =>
      obtain ⟨k, v⟩ := m
      exact ⟨'\x7b', _, rfl, rfl, by decide⟩

theorem objInsert_notMem : ∀ (acc : List (String × Json)) (k : String) (v : Json),
    (∀ p ∈ acc, p.1 ≠ k) → objInsert acc k v = acc ++ [(k, v)]
  | [], k, v, _ => rfl
  | (k0, v0) :: rest, k, v, h => by
    simp only [objInsert]
    rw [if_neg (h (k0, v0) (by simp))]
    rw [objInsert_notMem rest k v (fun q hq => h q (by simp [hq]))]
    rfl

theorem buildObj_go : ∀ (kvs acc : List (String × Json)),
    (∀ p ∈ acc, ∀ q ∈ kvs, p.1 ≠ q.1) → Json.keysFresh kvs = true →
    kvs.foldl (fun a kv => objInsert a kv.1 kv.2) acc = acc ++ kvs
  | [], acc, _, _ => by simp
  | (k, v) :: rest, acc, hdisj, hfresh => by
    simp only [Json.keysFresh, Bool.and_eq_true, Bool.not_eq_eq_eq_not, Bool.not_true] at hfresh
    simp only [List.foldl_cons]
    rw [show objInsert acc (k, v).1 (k, v).2 = objInsert acc k v from rfl]
    rw [objInsert_notMem acc k v (fun p hp => hdisj p hp (k, v) (by simp))]
    rw [buildObj_go rest (acc ++ [(k, v)]) ?_ hfresh.2]
    · simp
    · intro p hp q hq
      rcases List.mem_append.mp hp with hacc | hkv
      · exact hdisj p hacc q (by simp [hq])
      · simp only [List.mem_singleton] at hkv
        subst hkv
        have hany := hfresh.1
        simp only [List.any_eq_false, beq_eq_false_iff_ne] at hany
        exact fun he => (hany q hq) (beq_iff_eq.mpr he.symm)

theorem buildObj_fresh (kvs : List (String × Json)) (h : Json.keysFresh kvs = true) :
    buildObj kvs = kvs := by
  unfold buildObj
  rw [buildObj_go kvs [] (by simp) h]
  simp

theorem parseVal_quot (f : Nat) (rest : List Char) :
    parseVal (f + 1) ('"' :: rest) =
      (match parseStrBody rest with
       | some (cs, r) => some (.str (String.mk cs), r)
       | none => none) := rfl

theorem parseVal_lbrack (f : Nat) (rest : List Char) :
    parseVal (f + 1) ('[' :: rest) =
      (match skipWs rest with
       | [] => none
       | c2 :: r2 =>
         if c2 = ']' then some (.arr [], r2)
         else
           (match parseElems f (c2 :: r2) with
            | some (xs, r) => some (.arr xs, r)
            | none => none)) := rfl

theorem parseVal_lbrace (f : Nat) (rest : List Char) :
    parseVal (f + 1) ('\x7b' :: rest) =
      (match skipWs rest with
       | [] => none
       | c2 :: r2 =>
         if c2 = '\x7d' then some (.obj [], r2)
         else
           (match parseMembers f (c2 :: r2) with
            | some (pairs, r) => some (.obj (buildObj pairs), r)
            | none => none)) := rfl

theorem parseVal_nullLit (f : Nat) (r : List Char) :
    parseVal (f + 1) ('n' :: 'u' :: 'l' :: 'l' :: r) = some (.null, r) := rfl

theorem parseVal_trueLit (f : Nat) (r : List Char) :
    parseVal (f + 1) ('t' :: 'r' :: 'u' :: 'e' :: r) = some (.bool true, r) := rfl

theorem parseVal_falseLit (f : Nat) (r : List Char) :
    parseVal (f + 1) ('f' :: 'a' :: 'l' :: 's' :: 'e' :: r) = some (.bool false, r) := rfl

theorem parseVal_numTok (f : Nat) (c : Char) (rest : List Char)
    (h : c = '-' ∨ isDigitChar c = true) :
    parseVal (f + 1) (c :: rest) = parseNumToken (c :: rest) := by
  have htn : c.toNat = 45 ∨ (48 ≤ c.toNat ∧ c.toNat ≤ 57) := by
    rcases h with h | h
    · subst h; left; rfl
    · right; exact isDigitChar_bounds c h
  have h1 : ¬c = '"' := fun he => by subst he; revert htn; decide
  have h2 : ¬c = '[' := fun he => by subst he; revert htn; decide
  have h3 : ¬c = '\x7b' := fun he => by subst he; revert htn; decide
  have h4 : ¬c = 'n' := fun he => by subst he; revert htn; decide
  have h5 : ¬c = 't' := fun he => by subst he; revert htn; decide
  have h6 : ¬c = 'f' := fun he => by subst he; revert htn; decide
  simp only [parseVal]
  rw [if_neg h1, if_neg h2, if_neg h3, if_neg h4, if_neg h5, if_neg h6, if_pos h]

theorem parseElems_succ (f : Nat) (input : List Char) :
    parseElems (f + 1) input =
      (match parseVal f input with
       | some (v, r) =>
         (match skipWs r with
          | [] => none
          | c :: r2 =>
            if c = ']' then some ([v], r2)
            else if c = ',' then
              (match parseElems f (skipWs r2) with
               | some (vs, r3) => some (v :: vs, r3)
               | none => none)
            else none)
       | none => none) := rfl

theorem parseMembers_succ (f : Nat) (input : List Char) :
    parseMembers (f + 1) input =
      (match input with
       | [] => none
       | c0 :: krest =>
         if c0 = '"' then
           (match parseStrBody krest with
            | some (kcs, r1) =>
              (match skipWs r1 with
               | [] => none
               | c :: r2 =>
                 if c = ':' then
                   (match parseVal f (skipWs r2) with
                    | some (v, r3) =>
                      (match skipWs r3 with
                       | [] => none
                       | c2 :: r4 =>
                         if c2 = '\x7d' then some ([(String.mk kcs, v)], r4)
                         else if c2 = ',' then
                           (match parseMembers f (skipWs r4) with
                            | some (ps, r5) => some ((String.mk kcs, v) :: ps, r5)
                            | none => none)
                         else none)
                    | none => none)
                 else none)
            | none => none)
         else none) := rfl

theorem fuelNeed_pos : ∀ v : Json, 1 ≤ Json.fuelNeed v
  | .null => le_refl 1
  | .bool _ => le_refl 1
  | .num _ => le_refl 1
  | .str _ => le_refl 1
  | .arr [] => le_refl 1
  | .arr (x :: rest) => by simp [Json.fuelNeed]
  | .obj [] => le_refl 1
  | .obj (m :: rest) => by simp [Json.fuelNeed]

theorem parse_dumps_all : ∀ fuel : Nat,
    (∀ (v : Json) (rest : List Char), Json.wf v = true → Json.fuelNeed v ≤ fuel →
      numSafe rest = true → parseVal fuel (Json.dumps v ++ rest) = some (v, rest)) ∧
    (∀ (x : Json) (xs : List Json) (rest : List Char), Json.wf (.arr (x :: xs)) = true →
      Json.fuelNeedElems (x :: xs) ≤ fuel →
      parseElems fuel (Json.dumps x ++ (Json.dumpsList xs ++ ']' :: rest))
        = some (x :: xs, rest)) ∧
    (∀ (k : String) (v : Json) (ms : List (String × Json)) (rest : List Char),
      Json.wfMembers ((k, v) :: ms) = true → Json.fuelNeedMembers ((k, v) :: ms) ≤ fuel →
      parseMembers fuel (strLit k ++ ':' :: ' ' :: (Json.dumps v
        ++ (Json.dumpsMembers ms ++ '\x7d' :: rest))) = some ((k, v) :: ms, rest)) := by
  intro fuel
  induction fuel with
  | zero =>
    refine ⟨?_, ?_, ?_⟩
    · intro v rest _ hfuel _
      exact absurd hfuel (by have := fuelNeed_pos v; omega)
    · intro x xs rest _ hfuel
      simp only [Json.fuelNeedElems] at hfuel
      omega
    · intro k v ms rest _ hfuel
      simp only [Json.fuelNeedMembers] at hfuel
      omega
  | succ f ih =>
    obtain ⟨ihP, ihQ, ihR⟩ := ih
    refine ⟨?_, ?_, ?_⟩
    · intro v rest hwf hfuel hsafe
      cases v with
      | null =>
        rw [show Json.dumps .null ++ rest = 'n' :: 'u' :: 'l' :: 'l' :: rest from rfl]
        exact parseVal_nullLit f rest
      | bool b =>
        cases b with
        | true =>
          rw [show Json.dumps (.bool true) ++ rest = 't' :: 'r' :: 'u' :: 'e' :: rest from rfl]
          exact parseVal_trueLit f rest
        | false =>
          rw [show Json.dumps (.bool false) ++ rest
              = 'f' :: 'a' :: 'l' :: 's' :: 'e' :: rest from rfl]
          exact parseVal_falseLit f rest
      | num i =>
        obtain ⟨c, t, heq, hdisp⟩ := intDigits_head i
        rw [show Json.dumps (.num i) = intDigits i from rfl]
        rw [heq, List.cons_append]
        rw [parseVal_numTok f c _ hdisp]
        rw [show c :: (t ++ rest) = intDigits i ++ rest from by rw [heq]; rfl]
        exact parseNumToken_intDigits i rest hsafe
      | str s =>
        rw [show Json.dumps (.str s) ++ rest
            = '"' :: ((s.data.map escChar).flatten ++ '"' :: rest) from by
          simp [Json.dumps, strLit]]
        rw [parseVal_quot]
        rw [parseStrBody_flatten s.data rest]
      | arr xs =>
        cases xs with
        | nil =>
          rw [show Json.dumps (.arr []) ++ rest = '[' :: ']' :: rest from rfl]
          rw [parseVal_lbrack]
          rw [skipWs_cons_nonws ']' rest rfl]
          dsimp only
          rw [if_pos rfl]
        | cons x xs2 =>
          rw [show Json.dumps (.arr (x :: xs2)) ++ rest
              = '[' :: (Json.dumps x ++ (Json.dumpsList xs2 ++ ']' :: rest)) from by
            simp [Json.dumps]]
          rw [parseVal_lbrack]
          obtain ⟨c, t, hx, hnws, hnrb⟩ := dumps_head x
          rw [hx, List.cons_append]
          rw [skipWs_cons_nonws c _ hnws]
          dsimp only
          rw [if_neg hnrb]
          rw [show c :: (t ++ (Json.dumpsList xs2 ++ ']' :: rest))
              = Json.dumps x ++ (Json.dumpsList xs2 ++ ']' :: rest) from by rw [hx]; rfl]
          rw [ihQ x xs2 rest hwf (by simp only [Json.fuelNeed] at hfuel; omega)]
      | obj kvs =>
        cases kvs with
        | nil =>
          rw [show Json.dumps (.obj []) ++ rest = '\x7b' :: '\x7d' :: rest from rfl]
          rw [parseVal_lbrace]
          rw [skipWs_cons_nonws '\x7d' rest rfl]
          dsimp only
          rw [if_pos rfl]
        | cons m ms =>
          obtain ⟨k, v⟩ := m
          simp only [Json.wf, Bool.and_eq_true] at hwf
          rw [show Json.dumps (.obj ((k, v) :: ms)) ++ rest
              = '\x7b' :: (strLit k ++ ':' :: ' ' :: (Json.dumps v
                ++ (Json.dumpsMembers ms ++ '\x7d' :: rest))) from by
            simp [Json.dumps]]
          rw [parseVal_lbrace]
          rw [show strLit k ++ ':' :: ' ' :: (Json.dumps v
                ++ (Json.dumpsMembers ms ++ '\x7d' :: rest))
              = '"' :: (((k.data.map escChar).flatten ++ ['"']) ++ (':' :: ' ' :: (Json.dumps v
                ++ (Json.dumpsMembers ms ++ '\x7d' :: rest)))) from by
            simp [strLit]]
          rw [skipWs_cons_nonws '"' _ rfl]
          dsimp only
          rw [if_neg (by decide : ¬('"' : Char) = '\x7d')]
          rw [show ('"' : Char) :: (((k.data.map escChar).flatten ++ ['"'])
                ++ (':' :: ' ' :: (Json.dumps v ++ (Json.dumpsMembers ms ++ '\x7d' :: rest))))
              = strLit k ++ ':' :: ' ' :: (Json.dumps v
                ++ (Json.dumpsMembers ms ++ '\x7d' :: rest)) from by
            simp [strLit]]
          rw [ihR k v ms rest hwf.2
            (by simp only [Json.fuelNeed] at hfuel; omega)]
          dsimp only
          rw [buildObj_fresh _ hwf.1]
    · intro x xs rest hwf hfuel
      have hwfl : Json.wfList (x :: xs) = true := hwf
      simp only [Json.wfList, Bool.and_eq_true] at hwfl
      rw [parseElems_succ]
      cases xs with
      | nil =>
        rw [show Json.dumpsList ([] : List Json) ++ ']' :: rest = ']' :: rest from rfl]
        rw [ihP x (']' :: rest) hwfl.1
          (by simp only [Json.fuelNeedElems] at hfuel; omega) rfl]
        dsimp only
        rw [skipWs_cons_nonws ']' rest rfl]
        dsimp only
        rw [if_pos rfl]
      | cons y ys =>
        rw [show Json.dumpsList (y :: ys) ++ ']' :: rest
            = ',' :: ' ' :: (Json.dumps y ++ (Json.dumpsList ys ++ ']' :: rest)) from by
          simp [Json.dumpsList]]
        rw [ihP x (',' :: ' ' :: (Json.dumps y ++ (Json.dumpsList ys ++ ']' :: rest))) hwfl.1
          (by simp only [Json.fuelNeedElems] at hfuel; omega) rfl]
        dsimp only
        rw [skipWs_cons_nonws ',' _ rfl]
        dsimp only
        rw [if_neg (by decide : ¬(',' : Char) = ']')]
        rw [if_pos rfl]
        rw [skipWs_cons_ws ' ' _ rfl]
        obtain ⟨c, t, hy, hnws, _⟩ := dumps_head y
        rw [hy, List.cons_append]
        rw [skipWs_cons_nonws c _ hnws]
        rw [show c :: (t ++ (Json.dumpsList ys ++ ']' :: rest))
            = Json.dumps y ++ (Json.dumpsList ys ++ ']' :: rest) from by rw [hy]; rfl]
        rw [ihQ y ys rest hwfl.2
          (by simp only [Json.fuelNeedElems] at hfuel ⊢; omega)]
    · intro k v ms rest hwfm hfm
      simp only [Json.wfMembers, Bool.and_eq_true] at hwfm
      rw [parseMembers_succ]
      rw [show strLit k ++ ':' :: ' ' :: (Json.dumps v ++ (Json.dumpsMembers ms ++ '\x7d' :: rest))
          = '"' :: ((k.data.map escChar).flatten ++ '"' :: (':' :: ' ' :: (Json.dumps v
            ++ (Json.dumpsMembers ms ++ '\x7d' :: rest)))) from by
        simp [strLit]]
      dsimp only
      rw [if_pos rfl]
      rw [parseStrBody_flatten k.data _]
      dsimp only
      rw [skipWs_cons_nonws ':' _ rfl]
      dsimp only
      rw [if_pos rfl]
      rw [skipWs_cons_ws ' ' _ rfl]
      obtain ⟨c, t, hv, hnws, _⟩ := dumps_head v
      rw [hv, List.cons_append]
      rw [skipWs_cons_nonws c _ hnws]
      rw [show c :: (t ++ (Json.dumpsMembers ms ++ '\x7d' :: rest))
          = Json.dumps v ++ (Json.dumpsMembers ms ++ '\x7d' :: rest) from by rw [hv]; rfl]
      have hns : numSafe (Json.dumpsMembers ms ++ '\x7d' :: rest) = true := by
        cases ms with
        | nil => rfl
        | cons m2 ms2 =>
          obtain ⟨k2, v2⟩ := m2
          rfl
      rw [ihP v _ hwfm.1 (by simp only [Json.fuelNeedMembers] at hfm; omega) hns]
      dsimp only
      cases ms with
      | nil =>
        rw [show Json.dumpsMembers ([] : List (String × Json)) ++ '\x7d' :: rest
            = '\x7d' :: rest from rfl]
        rw [skipWs_cons_nonws '\x7d' rest rfl]
        dsimp only
        rw [if_pos rfl]
      | cons m2 ms2 =>
        obtain ⟨k2, v2⟩ := m2
        rw [show Json.dumpsMembers ((k2, v2) :: ms2) ++ '\x7d' :: rest
            = ',' :: ' ' :: (strLit k2 ++ ':' :: ' ' :: (Json.dumps v2
              ++ (Json.dumpsMembers ms2 ++ '\x7d' :: rest))) from by
          simp [Json.dumpsMembers]]
        rw [skipWs_cons_nonws ',' _ rfl]
        dsimp only
        rw [if_neg (by decide : ¬(',' : Char) = '\x7d')]
        rw [if_pos rfl]
        rw [skipWs_cons_ws ' ' _ rfl]
        rw [show strLit k2 ++ ':' :: ' ' :: (Json.dumps v2
              ++ (Json.dumpsMembers ms2 ++ '\x7d' :: rest))
            = '"' :: (((k2.data.map escChar).flatten ++ ['"']) ++ (':' :: ' ' :: (Json.dumps v2
              ++ (Json.dumpsMembers ms2 ++ '\x7d' :: rest)))) from by
          simp [strLit]]
        rw [skipWs_cons_nonws '"' _ rfl]
        rw [show ('"' : Char) :: (((k2.data.map escChar).flatten ++ ['"'])
              ++ (':' :: ' ' :: (Json.dumps v2 ++ (Json.dumpsMembers ms2 ++ '\x7d' :: rest))))
            = strLit k2 ++ ':' :: ' ' :: (Json.dumps v2
              ++ (Json.dumpsMembers ms2 ++ '\x7d' :: rest)) from by
          simp [strLit]]
        rw [ihR k2 v2 ms2 rest hwfm.2
          (by simp only [Json.fuelNeedMembers] at hfm ⊢; omega)]

mutual

theorem fuelNeed_le_dumps : ∀ v : Json, Json.fuelNeed v ≤ (Json.dumps v).length
  | .null => by simp [Json.fuelNeed, Json.dumps]
  | .bool b => by cases b <;> simp [Json.fuelNeed, Json.dumps]
  | .num i => by
    simp only [Json.fuelNeed, Json.dumps]
    obtain ⟨c, t, heq, _⟩ := intDigits_head i
    rw [heq]
    simp
  | .str s => by simp [Json.fuelNeed, Json.dumps, strLit]
  | .arr [] => by simp [Json.fuelNeed, Json.dumps]
  | .arr (x :: rest) => by
    have h1 := fuelNeed_le_dumps x
    have h2 := fuelNeedElems_le_dumpsList rest
    simp only [Json.fuelNeed, Json.fuelNeedElems, Json.dumps, List.cons_append,
      List.length_cons, List.length_append]
    omega
  | .obj [] => by simp [Json.fuelNeed, Json.dumps]
  | .obj ((k, v) :: rest) => by
    have h1 := fuelNeed_le_dumps v
    have h2 := fuelNeedMembers_le_dumpsMembers rest
    simp only [Json.fuelNeed, Json.fuelNeedMembers, Json.dumps, List.cons_append,
      List.length_cons, List.length_append]
    omega

theorem fuelNeedElems_le_dumpsList : ∀ xs : List Json,
    Json.fuelNeedElems xs ≤ (Json.dumpsList xs).length
  | [] => by simp [Json.fuelNeedElems, Json.dumpsList]
  | x :: rest => by
    have h1 := fuelNeed_le_dumps x
    have h2 := fuelNeedElems_le_dumpsList rest
    simp only [Json.fuelNeedElems, Json.dumpsList, List.length_cons, List.length_append]
    omega

theorem fuelNeedMembers_le_dumpsMembers : ∀ ms : List (String × Json),
    Json.fuelNeedMembers ms ≤ (Json.dumpsMembers ms).length
  | [] => by simp [Json.fuelNeedMembers, Json.dumpsMembers]
  | (k, v) :: rest => by
    have h1 := fuelNeed_le_dumps v
    have h2 := fuelNeedMembers_le_dumpsMembers rest
    simp only [Json.fuelNeedMembers, Json.dumpsMembers, List.length_cons, List.length_append]
    omega

end

theorem jsonLoads_dumps (v : Json) (hwf : Json.wf v = true) :
    jsonLoads (String.mk (Json.dumps v)) = some v := by
  have hfl : Json.fuelNeed v ≤ (Json.dumps v).length + 1 := by
    have := fuelNeed_le_dumps v
    omega
  have hP := (parse_dumps_all ((Json.dumps v).length + 1)).1 v [] hwf hfl rfl
  rw [List.append_nil] at hP
  unfold jsonLoads
  rw [show (String.mk (Json.dumps v)).data = Json.dumps v from rfl]
  obtain ⟨c, t, hv, hnws, _⟩ := dumps_head v
  rw [hv, skipWs_cons_nonws c _ hnws]
  rw [show c :: t = Json.dumps v from hv.symm]
  rw [hP]
  rfl

/-- C8.  Round-trip: decoding the base64 encoding of a structured value's
JSON serialization with the config reader's decoder succeeds and yields the
original value, for every well-formed value (objects with distinct keys,
arrays, strings, integers, booleans, null). -/
theorem decode_encode_roundtrip (v : Json) (hwf : Json.wf v = true) :
    Config.decode (encodePlatformVariable v) = .ok (some v) := by
  unfold Config.decode encodePlatformVariable
  rw [show (String.mk (b64Encode (utf8Enc (String.mk (Json.dumps v))))).data
      = b64Encode (utf8Enc (String.mk (Json.dumps v))) from rfl]
  rw [b64DecodeBytes_encode _ (utf8Enc_lt_256 _)]
  dsimp only
  rw [utf8Dec_enc (String.mk (Json.dumps v))]
  dsimp only
  rw [show String.mk ((String.mk (Json.dumps v)).data) = String.mk (Json.dumps v) from rfl]
  rw [jsonLoads_dumps v hwf]

theorem decode_encode_roundtrip_witness :
    Json.wf (Json.obj [("a", Json.num (-12)),
        ("b", Json.arr [Json.null, Json.bool true, Json.str "x y"])]) = true
    ∧ Config.decode (encodePlatformVariable (Json.obj [("a", Json.num (-12)),
        ("b", Json.arr [Json.null, Json.bool true, Json.str "x y"])]))
      = .ok (some (Json.obj [("a", Json.num (-12)),
        ("b", Json.arr [Json.null, Json.bool true, Json.str "x y"])])) :=
  ⟨by decide, decode_encode_roundtrip _ (by decide)⟩
